import Mathlib

/-!
Verification of the uml-diagram-generator pipeline: a shallow embedding of
the schema validators (`src/services/diagramParser.ts`, `src/services/umlParser.ts`),
the diagram transformer, the layout-engine policy layer
(`src/services/layoutEngine.ts`), the store actions and the storage helpers,
together with theorems settling the specified properties.

JavaScript untrusted values are embedded as the inductive `JValue`;
JavaScript numbers that the claims touch are integers and are embedded as
`Int` (exact, so every value is finite by construction); fallible lookups
return `Option`.
-/

/-- A JSON-like JavaScript runtime value (the `unknown` input of the
validators).  `undefined` fields are represented by absence from the
object field list. -/
inductive JValue where
  | null : JValue
  | bool : Bool → JValue
  | num : Int → JValue
  | str : String → JValue
  | arr : List JValue → JValue
  | obj : List (String × JValue) → JValue

namespace JValue

/-- Property access `o[k]`: first binding of the key in an object; arrays and
primitives have no (relevant) string-keyed properties, giving `undefined`
(`none`). -/
def getField : JValue → String → Option JValue
  | .obj fields, k => (fields.find? (fun p => p.1 = k)).map (fun p => p.2)
  | _, _ => none

/-- `typeof v !== 'object' || v === null` is false exactly on non-null
objects and arrays (in JavaScript `typeof [] === 'object'`). -/
def isObjectLike : JValue → Bool
  | .obj _ => true
  | .arr _ => true
  | _ => false

/-- JavaScript truthiness of a value. -/
def truthy : JValue → Bool
  | .null => false
  | .bool b => b
  | .num n => n ≠ 0
  | .str s => s ≠ ""
  | .arr _ => true
  | .obj _ => true

/-- The string produced by `typeof v` (for the values reaching the
`Expected object, got ...` message, i.e. non-objects). -/
def typeofStr : JValue → String
  | .null => "null"
  | .bool _ => "boolean"
  | .num _ => "number"
  | .str _ => "string"
  | .arr _ => "object"
  | .obj _ => "object"

/-- `Array.isArray(o[k])`. -/
def isArrayField (v : JValue) (k : String) : Bool :=
  match v.getField k with
  | some (.arr _) => true
  | _ => false

/-- `o[k]` when it is a string. -/
def getStrField (v : JValue) (k : String) : Option String :=
  match v.getField k with
  | some (.str s) => some s
  | _ => none

/-- Truthiness of the field `o[k]` (absent fields are `undefined`, falsy). -/
def truthyField (v : JValue) (k : String) : Bool :=
  match v.getField k with
  | some w => truthy w
  | none => false

end JValue

/-- `Array.prototype.map((x, idx) => f idx x)` starting from index `n`. -/
def mapIdxFrom (f : Nat → α → β) : Nat → List α → List β
  | _, [] => []
  | n, x :: xs => f n x :: mapIdxFrom f (n + 1) xs

/-- The validation result record `{valid, errors}`. -/
structure ValidationResult where
  valid : Bool
  errors : List String
deriving DecidableEq, Repr

/-- The six diagram kinds (`DiagramType`; the `class` tag is spelled
`classDiag` because `class` is a Lean keyword). -/
inductive DiagramType where
  | classDiag | useCase | activity | sequence | stateMachine | component
deriving DecidableEq, Repr

/-- `VALID_DIAGRAM_TYPES` membership: the string tags of the six kinds. -/
def parseDiagramType : String → Option DiagramType
  | "class" => some .classDiag
  | "useCase" => some .useCase
  | "activity" => some .activity
  | "sequence" => some .sequence
  | "stateMachine" => some .stateMachine
  | "component" => some .component
  | _ => none

namespace DiagramParser

/-- The `type` field check of `validateUnifiedDiagram`:
`!obj.type || !VALID_DIAGRAM_TYPES.includes(obj.type)` fails (giving `none`)
unless the field is one of the six known string tags (a falsy or non-string
or unknown-string tag all take the same error path). -/
def typeFieldKind (v : JValue) : Option DiagramType :=
  match v.getField "type" with
  | some (.str s) => parseDiagramType s
  | _ => none

/-- The per-kind required-collection checks of `validateUnifiedDiagram`
(the `switch (diagramType)` block). -/
def requiredCollectionErrors (v : JValue) : DiagramType → List String
  | .classDiag =>
      (if v.isArrayField "classes" then [] else ["Missing classes array"]) ++
      (if v.isArrayField "relationships" then [] else ["Missing relationships array"])
  | .useCase =>
      if v.isArrayField "actors" || v.isArrayField "useCases" then []
      else ["Missing actors or useCases array"]
  | .activity =>
      if v.isArrayField "activities" then [] else ["Missing activities array"]
  | .sequence =>
      if v.isArrayField "participants" then [] else ["Missing participants array"]
  | .stateMachine =>
      if v.isArrayField "states" then [] else ["Missing states array"]
  | .component =>
      if v.isArrayField "components" then [] else ["Missing components array"]

/-- `validateUnifiedDiagram` (`src/services/diagramParser.ts:36`). -/
def validateUnifiedDiagram (data : JValue) : ValidationResult :=
  if ¬ data.isObjectLike then ⟨false, ["Invalid JSON syntax"]⟩
  else
    match typeFieldKind data with
    | none => ⟨false, ["Missing or invalid diagram type"]⟩
    | some t =>
        let errors := requiredCollectionErrors data t
        ⟨errors.isEmpty, errors⟩

/-- The legacy `validateUML` of `src/services/diagramParser.ts:342`: a truthy
`type` field delegates to `validateUnifiedDiagram`; otherwise only the
array-ness of `classes` and `relationships` is checked. -/
def validateUML (data : JValue) : ValidationResult :=
  if ¬ data.isObjectLike then ⟨false, ["Invalid JSON syntax"]⟩
  else if data.truthyField "type" then validateUnifiedDiagram data
  else
    let errors :=
      (if data.isArrayField "classes" then [] else ["Missing required field: classes"]) ++
      (if data.isArrayField "relationships" then [] else ["Missing required field: relationships"])
    ⟨errors.isEmpty, errors⟩

end DiagramParser

namespace UmlParser

/-- `VALID_RELATIONSHIP_TYPES.includes(type)` on an untrusted value
(`isValidRelationshipType`). -/
def isValidRelationshipType : Option JValue → Bool
  | some (.str s) =>
      s = "association" || s = "inheritance" || s = "composition" || s = "aggregation"
  | _ => false

/-- A field value is a string (`typeof x === 'string'` on a property). -/
def isStrOpt : Option JValue → Bool
  | some (.str _) => true
  | _ => false

/-- A field value is an array whose elements are all strings. -/
def isStrArrOpt : Option JValue → Bool
  | some (.arr xs) => xs.all (fun a => match a with | .str _ => true | _ => false)
  | _ => false

/-- An optional field is absent or a string (`label !== undefined` implies
string). -/
def isOptionalStrOpt : Option JValue → Bool
  | none => true
  | some (.str _) => true
  | some _ => false

/-- A field value is a string contained in the collected class ids. -/
def refOK (o : Option JValue) (classIds : List String) : Bool :=
  match o with
  | some (.str s) => classIds.contains s
  | _ => false

/-- The error list of one `typeof x !== 'string'` check. -/
def strFieldErrors (o : Option JValue) (err : String) : List String :=
  match o with
  | some (.str _) => []
  | _ => [err]

/-- The error list of one array-of-strings check (missing-array and
bad-element errors are distinct messages). -/
def strArrayFieldErrors (o : Option JValue) (missingErr badErr : String) : List String :=
  match o with
  | some (.arr xs) =>
      if xs.all (fun a => match a with | .str _ => true | _ => false) then []
      else [badErr]
  | _ => [missingErr]

/-- The error list of one source/target reference check. -/
def refFieldErrors (o : Option JValue) (classIds : List String)
    (missingErr : String) (pfx : String) : List String :=
  match o with
  | some (.str s) =>
      if classIds.contains s then [] else [pfx ++ ": Invalid class reference: " ++ s]
  | _ => [missingErr]

/-- The error list of the optional-label check. -/
def labelFieldErrors (o : Option JValue) (pfx : String) : List String :=
  match o with
  | none => []
  | some (.str _) => []
  | some w => [pfx ++ ".label: Expected string, got " ++ w.typeofStr]

/-- `validateClass` (`src/services/umlParser.ts:36`): per-field checks of one
class element, errors indexed by position. -/
def validateClass (cls : JValue) (index : Nat) : List String :=
  let pfx := s!"classes[{index}]"
  if ¬ cls.isObjectLike then
    [s!"{pfx}: Expected object, got {cls.typeofStr}"]
  else
    strFieldErrors (cls.getField "id") (pfx ++ ": Missing required field: id") ++
    strFieldErrors (cls.getField "name") (pfx ++ ": Missing required field: name") ++
    strArrayFieldErrors (cls.getField "attributes")
      (pfx ++ ": Missing required field: attributes")
      (pfx ++ ".attributes: Expected array of strings") ++
    strArrayFieldErrors (cls.getField "operations")
      (pfx ++ ": Missing required field: operations")
      (pfx ++ ".operations: Expected array of strings")

/-- `validateRelationship` (`src/services/umlParser.ts:71`): source/target must
be strings referencing a collected class id, the type one of the four
relationship kinds, the optional label a string. -/
def validateRelationship (rel : JValue) (index : Nat) (classIds : List String) :
    List String :=
  let pfx := s!"relationships[{index}]"
  if ¬ rel.isObjectLike then
    [s!"{pfx}: Expected object, got {rel.typeofStr}"]
  else
    refFieldErrors (rel.getField "source") classIds
      (pfx ++ ": Missing required field: source") pfx ++
    refFieldErrors (rel.getField "target") classIds
      (pfx ++ ": Missing required field: target") pfx ++
    (if isValidRelationshipType (rel.getField "type") then []
     else [pfx ++ ": Missing required field: type"]) ++
    labelFieldErrors (rel.getField "label") pfx

/-- The class ids collected while validating (`validateUML` collects
`cls.id` whenever it is a string, even from otherwise-invalid elements). -/
def collectClassIds (classes : List JValue) : List String :=
  classes.foldr
    (fun c acc =>
      match c.getField "id" with
      | some (.str s) => s :: acc
      | _ => acc) []

/-- The element-level phase of the deep `validateUML`: every class and every
relationship validated against the ids collected from the classes. -/
def validateUMLDeep (classes relationships : List JValue) : ValidationResult :=
  let classIds := collectClassIds classes
  let classErrors := (mapIdxFrom (fun i c => validateClass c i) 0 classes).flatten
  let relErrors :=
    (mapIdxFrom (fun i r => validateRelationship r i classIds) 0 relationships).flatten
  let errors := classErrors ++ relErrors
  ⟨errors.isEmpty, errors⟩

/-- The deep `validateUML` of `src/services/umlParser.ts:114`: top-level
array checks return early; otherwise every class and every relationship is
validated and the errors accumulated. -/
def validateUML (data : JValue) : ValidationResult :=
  if ¬ data.isObjectLike then ⟨false, ["Invalid JSON syntax"]⟩
  else
    match data.getField "classes", data.getField "relationships" with
    | some (.arr classes), some (.arr relationships) =>
        validateUMLDeep classes relationships
    | _, _ =>
        ⟨false,
          (if data.isArrayField "classes" then []
           else ["Missing required field: classes"]) ++
          (if data.isArrayField "relationships" then []
           else ["Missing required field: relationships"])⟩

end UmlParser

/-! ## The validated diagram data model (`src/types`, spec section 3) -/

/-- Class-relationship kinds. -/
inductive RelationshipType where
  | association | inheritance | composition | aggregation
deriving DecidableEq, Repr

/-- A class element. -/
structure UMLClass where
  id : String
  name : String
  attributes : List String
  operations : List String
deriving DecidableEq, Repr

/-- A class relationship. -/
structure UMLRelationship where
  source : String
  target : String
  type : RelationshipType
  label : Option String := none
deriving DecidableEq, Repr

/-- A use-case actor. -/
structure UMLActor where
  id : String
  name : String
deriving DecidableEq, Repr

/-- A use-case element. -/
structure UseCaseElem where
  id : String
  name : String
  description : Option String := none
deriving DecidableEq, Repr

/-- Use-case relationship kinds (`include`/`extend` get a `Kind` suffix to
stay clear of Lean keywords). -/
inductive UseCaseRelType where
  | association | includeKind | extendKind | generalization
deriving DecidableEq, Repr

/-- A use-case relationship. -/
structure UseCaseRelationship where
  source : String
  target : String
  type : UseCaseRelType
  label : Option String := none
deriving DecidableEq, Repr

/-- Activity node sub-kinds. -/
inductive ActivityKind where
  | initial | action | decision | merge | fork | join | final | flowFinal
deriving DecidableEq, Repr

/-- An activity element. -/
structure UMLActivity where
  id : String
  type : ActivityKind
  label : String
deriving DecidableEq, Repr

/-- An activity transition. -/
structure UMLTransition where
  source : String
  target : String
  guard : Option String := none
  label : Option String := none
deriving DecidableEq, Repr

/-- Sequence participant kinds. -/
inductive ParticipantKind where
  | actor | object | boundary | control | entity
deriving DecidableEq, Repr

/-- A sequence participant. -/
structure SeqParticipant where
  id : String
  name : String
  type : ParticipantKind
deriving DecidableEq, Repr

/-- Sequence message kinds (the `return` tag is spelled `ret` because
`return` is a Lean keyword). -/
inductive MessageType where
  | sync | async | ret | create | destroy
deriving DecidableEq, Repr

/-- A sequence message; `from`/`to` are spelled `fromId`/`toId` (`from` is a
Lean keyword).  An absent message id is represented by `""` (both are falsy
for the `msg.id || ...` fallback). -/
structure SeqMessage where
  id : String
  fromId : String
  toId : String
  label : String
  type : MessageType
  order : Int
deriving DecidableEq, Repr

/-- A state element. -/
structure UMLState where
  id : String
  name : String
  isInitial : Option Bool := none
  isFinal : Option Bool := none
  entryAction : Option String := none
  exitAction : Option String := none
deriving DecidableEq, Repr

/-- A state transition. -/
structure StateTransition where
  source : String
  target : String
  trigger : Option String := none
  guard : Option String := none
  action : Option String := none
deriving DecidableEq, Repr

/-- A component interface entry. -/
structure CompInterface where
  id : String
  name : String
  kind : String
deriving DecidableEq, Repr

/-- Component dependency kinds. -/
inductive DependencyType where
  | dependency | realization
deriving DecidableEq, Repr

/-- A component element. -/
structure UMLComponent where
  id : String
  name : String
  stereotype : Option String := none
  interfaces : Option (List CompInterface) := none
deriving DecidableEq, Repr

/-- A component dependency. -/
structure UMLDependency where
  source : String
  target : String
  label : Option String := none
  type : DependencyType
deriving DecidableEq, Repr

/-- The tagged `UnifiedDiagram` union: every collection optional (the
transformer treats absent collections as empty). -/
structure UnifiedDiagram where
  type : DiagramType
  classes : Option (List UMLClass) := none
  relationships : Option (List UMLRelationship) := none
  actors : Option (List UMLActor) := none
  useCases : Option (List UseCaseElem) := none
  useCaseRelationships : Option (List UseCaseRelationship) := none
  activities : Option (List UMLActivity) := none
  transitions : Option (List UMLTransition) := none
  participants : Option (List SeqParticipant) := none
  messages : Option (List SeqMessage) := none
  states : Option (List UMLState) := none
  stateTransitions : Option (List StateTransition) := none
  components : Option (List UMLComponent) := none
  dependencies : Option (List UMLDependency) := none
deriving DecidableEq, Repr

/-! ## The generic graph node/edge model (React Flow nodes and edges) -/

/-- A 2-D position; coordinates are exact integers in the embedding (all
arithmetic the layout performs on them stays integral). -/
structure Position where
  x : Int
  y : Int
deriving DecidableEq, Repr

/-- The kind-specific node data payloads. -/
inductive NodeData where
  | classData (name : String) (attributes operations : List String)
  | actorData (name : String)
  | useCaseData (name : String) (description : Option String)
  | activityData (nodeType : ActivityKind) (label : String)
  | participantData (name : String) (participantType : ParticipantKind)
  | stateData (name : String) (isInitial isFinal : Option Bool)
      (entryAction exitAction : Option String)
  | componentData (name : String) (stereotype : Option String)
      (interfaces : Option (List CompInterface))
deriving DecidableEq, Repr

/-- A graph node: id, node-shape tag (the React Flow `type` string), mutable
position and data payload. -/
structure DiagramNode where
  id : String
  type : String
  position : Position
  data : NodeData
deriving DecidableEq, Repr

/-- The edge data payloads: `RelationshipEdgeData` for class edges,
`GenericEdgeData` (label + optional edgeType tag string) for the rest. -/
inductive EdgeData where
  | rel (type : RelationshipType) (label : Option String)
  | generic (label : Option String) (edgeType : Option String)
deriving DecidableEq, Repr

/-- A graph edge; `style` holds the `strokeDasharray` value when the code
attaches a dashed style, `animated` defaults to `false` (an absent property
is falsy). -/
structure DiagramEdge where
  id : String
  source : String
  target : String
  type : String
  label : Option String := none
  animated : Bool := false
  style : Option String := none
  data : EdgeData
deriving DecidableEq, Repr

/-- The transformer result `{nodes, edges}`. -/
structure ParseResult where
  nodes : List DiagramNode
  edges : List DiagramEdge
deriving DecidableEq, Repr

/-- JavaScript `a || b` on optional strings: the empty string is falsy. -/
def jsOr : Option String → Option String → Option String
  | some s, b => if s = "" then b else some s
  | none, b => b

/-- The string tag of a relationship type (for `GenericEdgeData.edgeType`). -/
def UseCaseRelType.tag : UseCaseRelType → String
  | .association => "association"
  | .includeKind => "include"
  | .extendKind => "extend"
  | .generalization => "generalization"

/-- The string tag of a message type. -/
def MessageType.tag : MessageType → String
  | .sync => "sync"
  | .async => "async"
  | .ret => "return"
  | .create => "create"
  | .destroy => "destroy"

/-- The string tag of a dependency type. -/
def DependencyType.tag : DependencyType → String
  | .dependency => "dependency"
  | .realization => "realization"

/-! ## The diagram transformer (`src/services/diagramParser.ts`) -/

namespace DiagramParser

/-- `parseClassDiagram`: one `classNode` per class (data copied), one
`relationshipEdge` per relationship with a synthesized id. -/
def classNodeOf (cls : UMLClass) : DiagramNode :=
  { id := cls.id
    type := "classNode"
    position := ⟨0, 0⟩
    data := .classData cls.name cls.attributes cls.operations }

/-- The class-relationship edge with id `edge-<source>-<target>-<index>`. -/
def relationshipEdgeOf (idx : Nat) (rel : UMLRelationship) : DiagramEdge :=
  { id := "edge-" ++ rel.source ++ "-" ++ rel.target ++ "-" ++ toString idx
    source := rel.source
    target := rel.target
    type := "relationshipEdge"
    data := .rel rel.type rel.label }

/-- `parseClassDiagram` (`src/services/diagramParser.ts:94`). -/
def parseClassDiagram (diagram : UnifiedDiagram) : ParseResult :=
  let classes := diagram.classes.getD []
  let relationships := diagram.relationships.getD []
  { nodes := classes.map classNodeOf
    edges := mapIdxFrom relationshipEdgeOf 0 relationships }

/-- `parseUseCaseDiagram` (`src/services/diagramParser.ts:127`): actor nodes
first, then use-case nodes; `include`/`extend` override the label with a
stereotype text and dash the edge. -/
def parseUseCaseDiagram (diagram : UnifiedDiagram) : ParseResult :=
  let actors := diagram.actors.getD []
  let useCases := diagram.useCases.getD []
  let relationships := diagram.useCaseRelationships.getD []
  let actorNodes := actors.map fun a =>
    { id := a.id, type := "actorNode", position := ⟨0, 0⟩,
      data := .actorData a.name : DiagramNode }
  let useCaseNodes := useCases.map fun uc =>
    { id := uc.id, type := "useCaseNode", position := ⟨0, 0⟩,
      data := .useCaseData uc.name uc.description : DiagramNode }
  let edges := mapIdxFrom (fun idx rel =>
    { id := "edge-" ++ rel.source ++ "-" ++ rel.target ++ "-" ++ toString idx
      source := rel.source
      target := rel.target
      type := "default"
      label :=
        if rel.type == UseCaseRelType.includeKind then some "<<include>>"
        else if rel.type == UseCaseRelType.extendKind then some "<<extend>>"
        else rel.label
      style :=
        if rel.type == UseCaseRelType.includeKind ∨ rel.type == UseCaseRelType.extendKind
        then some "5,5" else none
      data := .generic rel.label (some rel.type.tag) : DiagramEdge }) 0 relationships
  { nodes := actorNodes ++ useCaseNodes, edges := edges }

/-- `parseActivityDiagram` (`src/services/diagramParser.ts:171`): the displayed
label is `trans.guard || trans.label`. -/
def parseActivityDiagram (diagram : UnifiedDiagram) : ParseResult :=
  let activities := diagram.activities.getD []
  let transitions := diagram.transitions.getD []
  { nodes := activities.map fun act =>
      { id := act.id, type := "activityNode", position := ⟨0, 0⟩,
        data := .activityData act.type act.label }
    edges := mapIdxFrom (fun idx trans =>
      { id := "edge-" ++ trans.source ++ "-" ++ trans.target ++ "-" ++ toString idx
        source := trans.source
        target := trans.target
        type := "default"
        label := jsOr trans.guard trans.label
        data := .generic (jsOr trans.guard trans.label) none }) 0 transitions }

/-- `[...messages].sort((a, b) => a.order - b.order)`: insertion step of a
stable sort by `order` (a new element goes after every element whose order is
`≤` its own). -/
def insertByOrder (m : SeqMessage) : List SeqMessage → List SeqMessage
  | [] => [m]
  | y :: ys => if y.order ≤ m.order then y :: insertByOrder m ys else m :: y :: ys

/-- `Array.prototype.sort` with the comparator `a.order - b.order` is a
stable sort by `order` (ES2019); embedded as a stable insertion sort. -/
def sortMessages (ms : List SeqMessage) : List SeqMessage :=
  ms.foldl (fun acc m => insertByOrder m acc) []

/-- A message edge: synthesized id `msg-<i>` when the message id is
missing/empty, `animated` for `async`, dashed style for `return`. -/
def msgToEdge (idx : Nat) (m : SeqMessage) : DiagramEdge :=
  { id := if m.id = "" then "msg-" ++ toString idx else m.id
    source := m.fromId
    target := m.toId
    type := "default"
    label := some m.label
    animated := m.type == MessageType.async
    style := if m.type == MessageType.ret then some "5,5" else none
    data := .generic (some m.label) (some m.type.tag) }

/-- `parseSequenceDiagram` (`src/services/diagramParser.ts:198`): participants
laid out left-to-right by index (x = idx·200), messages sorted by `order`
before becoming edges. -/
def parseSequenceDiagram (diagram : UnifiedDiagram) : ParseResult :=
  let participants := diagram.participants.getD []
  let messages := diagram.messages.getD []
  { nodes := mapIdxFrom (fun idx p =>
      { id := p.id, type := "participantNode",
        position := ⟨(idx : Int) * 200, 0⟩,
        data := .participantData p.name p.type }) 0 participants
    edges := mapIdxFrom msgToEdge 0 (sortMessages messages) }

/-- Truthiness of an optional string (`if (trans.guard)`). -/
def strTruthy : Option String → Bool
  | some s => s ≠ ""
  | none => false

/-- The composed state-transition label
`<trigger> [<guard>] / <action>` (segments only if truthy), then trimmed. -/
def stateEdgeLabel (trans : StateTransition) : String :=
  let l0 := trans.trigger.getD ""
  let l1 := if strTruthy trans.guard then l0 ++ " [" ++ trans.guard.getD "" ++ "]" else l0
  let l2 := if strTruthy trans.action then l1 ++ " / " ++ trans.action.getD "" else l1
  l2.trim

/-- `parseStateMachineDiagram` (`src/services/diagramParser.ts:230`). -/
def parseStateMachineDiagram (diagram : UnifiedDiagram) : ParseResult :=
  let states := diagram.states.getD []
  let transitions := diagram.stateTransitions.getD []
  { nodes := states.map fun st =>
      { id := st.id, type := "stateNode", position := ⟨0, 0⟩,
        data := .stateData st.name st.isInitial st.isFinal st.entryAction st.exitAction }
    edges := mapIdxFrom (fun idx trans =>
      { id := "edge-" ++ trans.source ++ "-" ++ trans.target ++ "-" ++ toString idx
        source := trans.source
        target := trans.target
        type := "default"
        label := some (stateEdgeLabel trans)
        data := .generic (some (stateEdgeLabel trans)) none }) 0 transitions }

/-- `parseComponentDiagram` (`src/services/diagramParser.ts:269`): dashed
style exactly for `dependency`-kind dependencies. -/
def parseComponentDiagram (diagram : UnifiedDiagram) : ParseResult :=
  let components := diagram.components.getD []
  let dependencies := diagram.dependencies.getD []
  { nodes := components.map fun comp =>
      { id := comp.id, type := "componentNode", position := ⟨0, 0⟩,
        data := .componentData comp.name comp.stereotype comp.interfaces }
    edges := mapIdxFrom (fun idx dep =>
      { id := "edge-" ++ dep.source ++ "-" ++ dep.target ++ "-" ++ toString idx
        source := dep.source
        target := dep.target
        type := "default"
        label := dep.label
        style := if dep.type == DependencyType.dependency then some "5,5" else none
        data := .generic dep.label (some dep.type.tag) }) 0 dependencies }

/-- `parseUnifiedDiagram` (`src/services/diagramParser.ts:304`); the
`default` branch (unknown tag falls back to the class mapping) is
unreachable for the closed six-kind embedding and coincides with the
`classDiag` branch. -/
def parseUnifiedDiagram (diagram : UnifiedDiagram) : ParseResult :=
  match diagram.type with
  | .classDiag => parseClassDiagram diagram
  | .useCase => parseUseCaseDiagram diagram
  | .activity => parseActivityDiagram diagram
  | .sequence => parseSequenceDiagram diagram
  | .stateMachine => parseStateMachineDiagram diagram
  | .component => parseComponentDiagram diagram

end DiagramParser

namespace UmlParser

/-- `classToNode` (`src/services/umlParser.ts:178`). -/
def classToNode (umlClass : UMLClass) : DiagramNode :=
  { id := umlClass.id
    type := "classNode"
    position := ⟨0, 0⟩
    data := .classData umlClass.name umlClass.attributes umlClass.operations }

/-- `relationshipToEdge` (`src/services/umlParser.ts:196`). -/
def relationshipToEdge (relationship : UMLRelationship) (index : Nat) : DiagramEdge :=
  { id := "edge-" ++ relationship.source ++ "-" ++ relationship.target ++ "-" ++
      toString index
    source := relationship.source
    target := relationship.target
    type := "relationshipEdge"
    data := .rel relationship.type relationship.label }

/-- `parseToReactFlow` (`src/services/umlParser.ts:221`). -/
def parseToReactFlow (classes : List UMLClass) (relationships : List UMLRelationship) :
    ParseResult :=
  { nodes := classes.map classToNode
    edges := mapIdxFrom (fun i r => relationshipToEdge r i) 0 relationships }

end UmlParser

/-! ## The store's reverse mapping and actions (`src/store/diagramStore.ts`) -/

namespace DiagramStore

/-- `(edge.data as {label?})?.label`. -/
def edgeDataLabel : EdgeData → Option String
  | .rel _ l => l
  | .generic l _ => l

/-- `((edge.data as {type?})?.type || 'association')`: generic edge data has
no `type` field (undefined, falsy), defaulting to `association`. -/
def edgeDataRelType : EdgeData → RelationshipType
  | .rel t _ => t
  | .generic _ _ => .association

/-- `(edge.data as {edgeType?})?.edgeType`. -/
def edgeDataEdgeType : EdgeData → Option String
  | .rel _ _ => none
  | .generic _ et => et

/-- `(node.data as {name}).name`: every data variant except `activityData`
carries a `name` field; on `activityData` the JavaScript read yields
`undefined` (`none`). -/
def dataName : NodeData → Option String
  | .classData n _ _ => some n
  | .actorData n => some n
  | .useCaseData n _ => some n
  | .activityData _ _ => none
  | .participantData n _ => some n
  | .stateData n _ _ _ _ => some n
  | .componentData n _ _ => some n

/-- `nodesToUnifiedDiagram` (the reverse mapping `graphToDiagram`,
`src/store/diagramStore.ts`): reconstructs a `UnifiedDiagram` from the live
graph for the active kind.  Where the code casts `node.data`/`edge.data` to
a variant-specific shape, the mismatched-variant reads (which yield
`undefined` in JavaScript and never occur on transformer-produced graphs)
are embedded with the typed defaults noted inline. -/
def nodesToUnifiedDiagram (nodes : List DiagramNode) (edges : List DiagramEdge)
    (diagramType : DiagramType) : UnifiedDiagram :=
  match diagramType with
  | .classDiag =>
      { type := .classDiag
        classes := some ((nodes.filter (fun n => n.type == "classNode")).map fun n =>
          match n.data with
          | .classData name attrs ops => ⟨n.id, name, attrs, ops⟩
          -- cast mismatch: JS reads undefined name and `attributes || []`
          | _ => ⟨n.id, "", [], []⟩)
        relationships := some (edges.map fun e =>
          ⟨e.source, e.target, edgeDataRelType e.data, edgeDataLabel e.data⟩) }
  | .useCase =>
      { type := .useCase
        actors := some ((nodes.filter (fun n => n.type == "actorNode")).map fun n =>
          ⟨n.id, (dataName n.data).getD ""⟩)
        useCases := some ((nodes.filter (fun n => n.type == "useCaseNode")).map fun n =>
          -- the reconstruction keeps only id and name (no description)
          { id := n.id, name := (dataName n.data).getD "" }) }
  | .activity =>
      { type := .activity
        activities := some (nodes.map fun n =>
          match n.data with
          | .activityData k l => ⟨n.id, k, l⟩  -- `label || ''` keeps the string
          -- cast mismatch: JS reads undefined nodeType/label
          | _ => ⟨n.id, ActivityKind.action, ""⟩)
        transitions := some (edges.map fun e =>
          { source := e.source, target := e.target, guard := edgeDataLabel e.data }) }
  | .sequence =>
      { type := .sequence
        participants := some (nodes.map fun n =>
          { id := n.id
            name := (dataName n.data).getD ""
            type := match n.data with
              | .participantData _ t => t
              -- cast mismatch: JS reads an undefined participantType
              | _ => ParticipantKind.object }) }
  | .stateMachine =>
      { type := .stateMachine
        states := some (nodes.map fun n =>
          { id := n.id
            name := (dataName n.data).getD ""  -- `name || ''`
            isInitial := match n.data with
              | .stateData _ i _ _ _ => i
              | _ => none
            isFinal := match n.data with
              | .stateData _ _ f _ _ => f
              | _ => none })
        stateTransitions := some (edges.map fun e =>
          { source := e.source, target := e.target, trigger := edgeDataLabel e.data }) }
  | .component =>
      { type := .component
        components := some (nodes.map fun n =>
          { id := n.id
            name := (dataName n.data).getD ""
            stereotype := match n.data with
              | .componentData _ st _ => st
              | _ => none })
        dependencies := some (edges.map fun e =>
          { source := e.source
            target := e.target
            label := edgeDataLabel e.data
            -- `(edgeType || 'dependency')`: only the `realization` tag keeps
            -- a non-default kind in the typed model
            type := match edgeDataEdgeType e.data with
              | some "realization" => DependencyType.realization
              | _ => DependencyType.dependency }) }

/-- A conversation message (`Message`); timestamps are embedded as integer
epoch milliseconds. -/
structure Message where
  id : String
  role : String
  content : String
  timestamp : Int
deriving DecidableEq, Repr

/-- A project-index record (`Project`). -/
structure Project where
  id : String
  name : String
  diagramType : DiagramType
  createdAt : Int
  updatedAt : Int
deriving DecidableEq, Repr

/-- The Zustand store state (the fields of `DiagramStore` that hold data). -/
structure DiagramStoreState where
  projects : List Project
  currentProjectId : Option String
  currentDiagramType : DiagramType
  nodes : List DiagramNode
  edges : List DiagramEdge
  messages : List Message
  isLoading : Bool
deriving Repr

/-- `createProject(diagramType)` (`src/store/diagramStore.ts`): the impure
`generateId()` and `new Date()` are passed in as the `newId`/`now`
parameters. -/
def createProject (state : DiagramStoreState) (newId : String) (now : Int)
    (diagramType : DiagramType) : DiagramStoreState :=
  let newProject : Project :=
    { id := newId, name := "Untitled Project", diagramType := diagramType,
      createdAt := now, updatedAt := now }
  { projects := state.projects ++ [newProject]
    currentProjectId := some newProject.id
    currentDiagramType := diagramType
    nodes := []
    edges := []
    messages := []
    isLoading := false }

end DiagramStore

/-! ## The storage helper (`src/utils/storage.ts`) -/

namespace Storage

/-- A stored project record (`StoredProject`); timestamps are the ISO
strings of the wire format. -/
structure StoredProject where
  id : String
  name : String
  diagramType : DiagramType
  diagram : UnifiedDiagram
  messages : List DiagramStore.Message
  createdAt : String
  updatedAt : String
deriving DecidableEq, Repr

/-- `Array.prototype.findIndex(p => p.id === id)` on the stored list. -/
def findIndexById (id : String) : List StoredProject → Option Nat
  | [] => none
  | q :: qs => if q.id = id then some 0 else (findIndexById id qs).map (· + 1)

/-- The replace-or-append core of `saveToStorage`
(`src/utils/storage.ts:19`): an existing id is updated in place at its
index, a new id is appended.  The surrounding localStorage/JSON plumbing is
represented by the parsed stored list itself. -/
def saveToStorage (projects : List StoredProject) (project : StoredProject) :
    List StoredProject :=
  match findIndexById project.id projects with
  | some i => projects.set i project
  | none => projects ++ [project]

end Storage

/-! ## The layout engine (`src/services/layoutEngine.ts`) -/

namespace LayoutEngine

/-- Layout direction (`rankdir`). -/
inductive RankDir where
  | TB | BT | LR | RL
deriving DecidableEq, Repr

/-- `LayoutConfig`. -/
structure LayoutConfig where
  rankdir : RankDir
  nodesep : Int
  ranksep : Int
  nodeWidth : Int
  nodeHeight : Int
deriving DecidableEq, Repr

/-- `LAYOUT_CONFIGS` (`src/services/layoutEngine.ts:27`). -/
def LAYOUT_CONFIGS : DiagramType → LayoutConfig
  | .classDiag =>
      { rankdir := .TB, nodesep := 80, ranksep := 100, nodeWidth := 200, nodeHeight := 150 }
  | .useCase =>
      { rankdir := .LR, nodesep := 60, ranksep := 150, nodeWidth := 120, nodeHeight := 80 }
  | .activity =>
      { rankdir := .TB, nodesep := 50, ranksep := 80, nodeWidth := 120, nodeHeight := 50 }
  | .sequence =>
      { rankdir := .LR, nodesep := 100, ranksep := 50, nodeWidth := 150, nodeHeight := 250 }
  | .stateMachine =>
      { rankdir := .LR, nodesep := 80, ranksep := 120, nodeWidth := 140, nodeHeight := 60 }
  | .component =>
      { rankdir := .TB, nodesep := 80, ranksep := 100, nodeWidth := 160, nodeHeight := 100 }

/-- `DEFAULT_LAYOUT_CONFIG = LAYOUT_CONFIGS.class`. -/
def DEFAULT_LAYOUT_CONFIG : LayoutConfig := LAYOUT_CONFIGS .classDiag

/-- `detectDiagramType` (`src/services/layoutEngine.ts:81`): profile from the
shape tag of the first node, `class` as default. -/
def detectDiagramType (nodes : List DiagramNode) : DiagramType :=
  match nodes with
  | [] => .classDiag
  | n :: _ =>
      match n.type with
      | "classNode" => .classDiag
      | "actorNode" => .useCase
      | "useCaseNode" => .useCase
      | "activityNode" => .activity
      | "participantNode" => .sequence
      | "stateNode" => .stateMachine
      | "componentNode" => .component
      | _ => .classDiag

/-- Width/height of a layout box. -/
structure Dims where
  width : Int
  height : Int
deriving DecidableEq, Repr

/-- `getNodeDimensions` (`src/services/layoutEngine.ts:171`): shape-specific
bounding-box sizes, class/default from the config. -/
def getNodeDimensions (nodeType : String) (config : LayoutConfig) : Dims :=
  match nodeType with
  | "actorNode" => ⟨60, 80⟩
  | "useCaseNode" => ⟨140, 60⟩
  | "activityNode" => ⟨120, 50⟩
  | "participantNode" => ⟨150, 250⟩
  | "stateNode" => ⟨140, 60⟩
  | "componentNode" => ⟨160, 100⟩
  | _ => ⟨config.nodeWidth, config.nodeHeight⟩

/-! ### The hierarchical layout algorithm

Modelled from the spec: the `dagre` library the code delegates to is not
part of this repository.  Spec section 4.3 describes it as a "directed
hierarchical layered-graph algorithm (rank assignment + within-rank ordering
..., standard layered-graph/Sugiyama-style layout)" whose output is
center-point coordinates per node, with `nodesep` spacing inside a rank and
`ranksep` spacing between ranks.  The model below assigns ranks by bounded
longest-path relaxation over the resolvable edges, orders nodes inside a
rank by insertion order, and places rank bands along the main axis
(vertical for `TB`/`BT`, horizontal for `LR`/`RL`; the reversal of `BT`/`RL`
is not modelled — no built-in profile uses them) separated by `ranksep`,
with boxes inside a band separated by `nodesep` and every node centered in
its band. -/

/-- Whether the main (rank) axis is vertical. -/
def RankDir.vertical : RankDir → Bool
  | .TB => true
  | .BT => true
  | .LR => false
  | .RL => false

/-- Box extent along the cross (within-rank) axis. -/
def crossSize (vertical : Bool) (d : Dims) : Int :=
  if vertical then d.width else d.height

/-- Box extent along the main (rank) axis. -/
def mainSize (vertical : Bool) (d : Dims) : Int :=
  if vertical then d.height else d.width

/-- First-occurrence deduplication, with the ids already kept as the
accumulator. -/
def dedupIdsAux (seen : List String) : List String → List String
  | [] => []
  | i :: rest =>
      if seen.contains i then dedupIdsAux seen rest
      else i :: dedupIdsAux (i :: seen) rest

/-- First-occurrence deduplication of the node ids added via `setNode`
(adding an id twice keeps one graph node). -/
def dedupIds (l : List String) : List String := dedupIdsAux [] l

/-- The dimensions registered for an id (`setNode` overwrites, so the last
occurrence wins). -/
def dimsOfId (gnodes : List (String × Dims)) (i : String) : Dims :=
  ((gnodes.reverse.find? (fun p => p.1 = i)).map (fun p => p.2)).getD ⟨0, 0⟩

/-- The rank stored for an id in a rank map (0 if absent). -/
def lookupRank (rm : List (String × Nat)) (i : String) : Nat :=
  ((rm.find? (fun p => p.1 = i)).map (fun p => p.2)).getD 0

/-- One relaxation sweep: each edge pushes its target's rank above its
source's. -/
def relaxEdges (edges : List (String × String)) (rm : List (String × Nat)) :
    List (String × Nat) :=
  edges.foldl
    (fun rm e =>
      rm.map (fun p => if p.1 = e.2 then (p.1, max p.2 (lookupRank rm e.1 + 1)) else p))
    rm

/-- Rank assignment: bounded longest-path relaxation (`|ids|` sweeps) from
rank 0. -/
def computeRanks (ids : List String) (edges : List (String × String)) :
    List (String × Nat) :=
  (List.range ids.length).foldl (fun rm _ => relaxEdges edges rm)
    (ids.map (fun i => (i, 0)))

/-- The largest assigned rank. -/
def maxRankOf (rm : List (String × Nat)) : Nat :=
  rm.foldl (fun m p => max m p.2) 0

/-- A node placed by the layered algorithm: its cross-axis left offset, the
main-axis start of its rank band and the band's thickness. -/
structure PlacedEntry where
  id : String
  dims : Dims
  crossLeft : Int
  mainStart : Int
  rowMain : Int
deriving DecidableEq, Repr

/-- The thickness of a rank band: the largest main-axis extent in the row. -/
def rowMaxMain (vertical : Bool) (row : List (String × Dims)) : Int :=
  row.foldl (fun m e => max m (mainSize vertical e.2)) 0

/-- Cross-axis placement inside one rank: boxes in insertion order,
separated by `nodesep`. -/
def placeRow (vertical : Bool) (nodesep : Int) :
    List (String × Dims) → Int → List (String × Dims × Int)
  | [], _ => []
  | e :: rest, off =>
      (e.1, e.2, off) :: placeRow vertical nodesep rest (off + crossSize vertical e.2 + nodesep)

/-- Main-axis placement of the rank bands, separated by `ranksep`. -/
def placeRows (vertical : Bool) (nodesep ranksep : Int) :
    List (List (String × Dims)) → Int → List PlacedEntry
  | [], _ => []
  | row :: rest, mainOff =>
      (placeRow vertical nodesep row 0).map
        (fun e => ⟨e.1, e.2.1, e.2.2, mainOff, rowMaxMain vertical row⟩) ++
      placeRows vertical nodesep ranksep rest (mainOff + rowMaxMain vertical row + ranksep)

/-- The center point of a placed node: centered in its rank band on the main
axis, half its own box past its offset on the cross axis. -/
def entryCenter (vertical : Bool) (e : PlacedEntry) : Position :=
  let crossC := e.crossLeft + crossSize vertical e.dims / 2
  let mainC := e.mainStart + e.rowMain / 2
  if vertical then ⟨crossC, mainC⟩ else ⟨mainC, crossC⟩

/-- The deduplicated graph node ids. -/
def graphIds (gnodes : List (String × Dims)) : List String :=
  dedupIds (gnodes.map (fun p => p.1))

/-- The graph entries: each id with its registered dimensions. -/
def graphEntries (gnodes : List (String × Dims)) : List (String × Dims) :=
  (graphIds gnodes).map (fun i => (i, dimsOfId gnodes i))

/-- The computed rank map of the graph. -/
def graphRanks (gnodes : List (String × Dims))
    (gedges : List (String × String)) : List (String × Nat) :=
  computeRanks (graphIds gnodes) gedges

/-- The graph entries cut into rank rows. -/
def graphRows (gnodes : List (String × Dims))
    (gedges : List (String × String)) : List (List (String × Dims)) :=
  (List.range (maxRankOf (graphRanks gnodes gedges) + 1)).map
    (fun r => (graphEntries gnodes).filter
      (fun e => lookupRank (graphRanks gnodes gedges) e.1 = r))

/-- The full placement: deduplicate ids, rank them, cut into rank rows and
place every row. -/
def dagrePlace (cfg : LayoutConfig) (gnodes : List (String × Dims))
    (gedges : List (String × String)) : List PlacedEntry :=
  placeRows cfg.rankdir.vertical cfg.nodesep cfg.ranksep (graphRows gnodes gedges) 0

/-- `graph.node(id)`: the center position assigned to an id (⟨0,0⟩ if the id
was never added — unreachable from `calculateLayout`, which adds every
node). -/
def dagreCenter (cfg : LayoutConfig) (placed : List PlacedEntry) (i : String) : Position :=
  ((placed.find? (fun e => e.id = i)).map (entryCenter cfg.rankdir.vertical)).getD ⟨0, 0⟩

/-- The `(id, dimensions)` pairs added to the layout graph via `setNode`. -/
def layoutGNodes (nodes : List DiagramNode) (cfg : LayoutConfig) :
    List (String × Dims) :=
  nodes.map (fun n => (n.id, getNodeDimensions n.type cfg))

/-- The edges added to the layout graph: only those whose both endpoints
exist among the nodes (`graph.hasNode`); dangling edges are silently
excluded from the layout graph. -/
def layoutGEdges (nodes : List DiagramNode) (edges : List DiagramEdge)
    (cfg : LayoutConfig) : List (String × String) :=
  (edges.filter (fun e =>
    ((layoutGNodes nodes cfg).map (fun p => p.1)).contains e.source &&
    ((layoutGNodes nodes cfg).map (fun p => p.1)).contains e.target)).map
    (fun e => (e.source, e.target))

/-- One node of the output: the dagre center converted to a top-left anchor
using the node's own shape-specific dimensions. -/
def layoutPlacedNode (cfg : LayoutConfig) (placed : List PlacedEntry)
    (n : DiagramNode) : DiagramNode :=
  let dimensions := getNodeDimensions n.type cfg
  let c := dagreCenter cfg placed n.id
  { n with position := ⟨c.x - dimensions.width / 2, c.y - dimensions.height / 2⟩ }

/-- `calculateLayout` (`src/services/layoutEngine.ts:109`): empty input gives
`[]`; otherwise the config is auto-detected unless supplied, nodes enter the
layout graph with shape-specific dimensions, edges only when both endpoints
exist, and each returned node carries the center position converted to a
top-left anchor using its own shape dimensions. -/
def calculateLayout (nodes : List DiagramNode) (edges : List DiagramEdge)
    (config : Option LayoutConfig := none) : List DiagramNode :=
  match nodes with
  | [] => []
  | _ :: _ =>
    let layoutConfig := config.getD (LAYOUT_CONFIGS (detectDiagramType nodes))
    nodes.map (layoutPlacedNode layoutConfig
      (dagrePlace layoutConfig (layoutGNodes nodes layoutConfig)
        (layoutGEdges nodes edges layoutConfig)))

/-- The shape-specific bounding box of a laid-out node (top-left anchored):
used by the non-overlap property. -/
def nodeBox (cfg : LayoutConfig) (n : DiagramNode) : Position × Dims :=
  (n.position, getNodeDimensions n.type cfg)

/-- Two axis-aligned boxes overlap when their open extents intersect on both
axes. -/
def boxesOverlap (b1 b2 : Position × Dims) : Prop :=
  b1.1.x < b2.1.x + b2.2.width ∧ b2.1.x < b1.1.x + b1.2.width ∧
  b1.1.y < b2.1.y + b2.2.height ∧ b2.1.y < b1.1.y + b1.2.height

instance (b1 b2 : Position × Dims) : Decidable (boxesOverlap b1 b2) := by
  unfold boxesOverlap; infer_instance

end LayoutEngine

/-! ## Properties of the message sort -/

namespace DiagramParser

/-- Membership in an insertion step. -/
theorem mem_insertByOrder {z m : SeqMessage} :
    ∀ {acc : List SeqMessage}, z ∈ insertByOrder m acc ↔ z = m ∨ z ∈ acc := by
  intro acc
  induction acc with
  | nil => simp [insertByOrder]
  | cons y ys ih =>
      by_cases h : y.order ≤ m.order
      · simp only [insertByOrder, if_pos h, List.mem_cons, ih]
        tauto
      · simp only [insertByOrder, if_neg h, List.mem_cons]

/-- Insertion preserves sortedness by `order`. -/
theorem insertByOrder_pairwise {m : SeqMessage} :
    ∀ {acc : List SeqMessage},
      acc.Pairwise (fun a b => a.order ≤ b.order) →
      (insertByOrder m acc).Pairwise (fun a b => a.order ≤ b.order) := by
  intro acc
  induction acc with
  | nil => intro _; simp [insertByOrder]
  | cons y ys ih =>
      intro h
      rcases List.pairwise_cons.mp h with ⟨hy, hys⟩
      by_cases hcmp : y.order ≤ m.order
      · simp only [insertByOrder, if_pos hcmp]
        refine List.pairwise_cons.mpr ⟨?_, ih hys⟩
        intro z hz
        rcases mem_insertByOrder.mp hz with rfl | hz
        · exact hcmp
        · exact hy z hz
      · simp only [insertByOrder, if_neg hcmp]
        refine List.pairwise_cons.mpr ⟨?_, h⟩
        intro z hz
        rcases List.mem_cons.mp hz with rfl | hz
        · exact le_of_not_le hcmp
        · exact le_trans (le_of_not_le hcmp) (hy z hz)

/-- Insertion is a permutation of consing. -/
theorem insertByOrder_perm (m : SeqMessage) :
    ∀ (acc : List SeqMessage), List.Perm (insertByOrder m acc) (m :: acc) := by
  intro acc
  induction acc with
  | nil => rfl
  | cons y ys ih =>
      by_cases h : y.order ≤ m.order
      · simp only [insertByOrder, if_pos h]
        exact ((ih.cons y).trans (List.Perm.swap m y ys))
      · simp only [insertByOrder, if_neg h]
        exact List.Perm.refl _

/-- The filter of an insertion into a sorted accumulator: an element with the
filtered order value lands after all existing ones (stability of the
insertion). -/
theorem filter_insertByOrder (k : Int) (m : SeqMessage) :
    ∀ (acc : List SeqMessage),
      acc.Pairwise (fun a b => a.order ≤ b.order) →
      (insertByOrder m acc).filter (fun x => x.order == k) =
        if m.order = k
        then acc.filter (fun x => x.order == k) ++ [m]
        else acc.filter (fun x => x.order == k) := by
  intro acc
  induction acc with
  | nil =>
      intro _
      by_cases h : m.order = k
      · have hb : (m.order == k) = true := by simpa using h
        simp [insertByOrder, List.filter, h, hb]
      · have hb : (m.order == k) = false := by simpa using h
        simp [insertByOrder, List.filter, h, hb]
  | cons y ys ih =>
      intro h
      rcases List.pairwise_cons.mp h with ⟨hy, hys⟩
      by_cases hcmp : y.order ≤ m.order
      · simp only [insertByOrder, if_pos hcmp]
        by_cases hyk : y.order = k
        · simp only [List.filter_cons, hyk]
          simp only [beq_self_eq_true, if_pos]
          rw [ih hys]
          by_cases hmk : m.order = k <;> simp [hmk]
        · have : (y.order == k) = false := by simpa using hyk
          simp only [List.filter_cons, this]
          rw [ih hys]
          by_cases hmk : m.order = k <;> simp [hmk]
      · simp only [insertByOrder, if_neg hcmp]
        have hlt : m.order < y.order := lt_of_not_le hcmp
        by_cases hmk : m.order = k
        · -- every element of y :: ys has order ≥ y.order > k: the filter is empty
          have hnil : (y :: ys).filter (fun x => x.order == k) = [] := by
            rw [List.filter_eq_nil_iff]
            intro z hz
            have hzge : y.order ≤ z.order := by
              rcases List.mem_cons.mp hz with rfl | hz
              · exact le_refl _
              · exact hy z hz
            have hne : z.order ≠ k := by
              have : k < z.order := lt_of_lt_of_le (hmk ▸ hlt) hzge
              omega
            simpa using hne
          rw [if_pos hmk, hnil, List.filter_cons]
          have : (m.order == k) = true := by simpa using hmk
          simp [this, hnil]
        · have : (m.order == k) = false := by simpa using hmk
          rw [if_neg hmk, List.filter_cons]
          simp [this]

/-- The fold underlying `sortMessages` keeps the accumulator sorted. -/
theorem foldl_insert_pairwise :
    ∀ (ms acc : List SeqMessage),
      acc.Pairwise (fun a b => a.order ≤ b.order) →
      (ms.foldl (fun a x => insertByOrder x a) acc).Pairwise
        (fun a b => a.order ≤ b.order) := by
  intro ms
  induction ms with
  | nil => intro acc h; simpa using h
  | cons m ms ih =>
      intro acc h
      exact ih _ (insertByOrder_pairwise h)

/-- The fold underlying `sortMessages` permutes its inputs. -/
theorem foldl_insert_perm :
    ∀ (ms acc : List SeqMessage),
      List.Perm (ms.foldl (fun a x => insertByOrder x a) acc) (acc ++ ms) := by
  intro ms
  induction ms with
  | nil => intro acc; simp
  | cons m ms ih =>
      intro acc
      have h1 : (m :: ms).foldl (fun a x => insertByOrder x a) acc
          = ms.foldl (fun a x => insertByOrder x a) (insertByOrder m acc) := rfl
      rw [h1]
      have h2 := ih (insertByOrder m acc)
      have h3 : List.Perm (insertByOrder m acc ++ ms) ((m :: acc) ++ ms) :=
        (insertByOrder_perm m acc).append_right ms
      have h4 : List.Perm (m :: (acc ++ ms)) (acc ++ m :: ms) := List.perm_middle.symm
      exact (h2.trans h3).trans h4

/-- The fold underlying `sortMessages` is stable: filtering by any order
value preserves the input order. -/
theorem foldl_insert_filter (k : Int) :
    ∀ (ms acc : List SeqMessage),
      acc.Pairwise (fun a b => a.order ≤ b.order) →
      (ms.foldl (fun a x => insertByOrder x a) acc).filter (fun x => x.order == k) =
        acc.filter (fun x => x.order == k) ++ ms.filter (fun x => x.order == k) := by
  intro ms
  induction ms with
  | nil => intro acc _; simp
  | cons m ms ih =>
      intro acc h
      have step := filter_insertByOrder k m acc h
      have h1 : ((m :: ms).foldl (fun a x => insertByOrder x a) acc).filter
              (fun x => x.order == k)
          = (ms.foldl (fun a x => insertByOrder x a) (insertByOrder m acc)).filter
              (fun x => x.order == k) := rfl
      rw [h1, ih _ (insertByOrder_pairwise h), step, List.filter_cons]
      by_cases hmk : m.order = k
      · have hb : (m.order == k) = true := by simpa using hmk
        simp [hmk, hb]
      · have hb : (m.order == k) = false := by simpa using hmk
        simp [hmk, hb]

/-- `sortMessages` sorts by `order`. -/
theorem sortMessages_pairwise (ms : List SeqMessage) :
    (sortMessages ms).Pairwise (fun a b => a.order ≤ b.order) :=
  foldl_insert_pairwise ms [] (by simp)

/-- `sortMessages` permutes its input. -/
theorem sortMessages_perm (ms : List SeqMessage) :
    List.Perm (sortMessages ms) ms := by
  simpa using foldl_insert_perm ms []

/-- `sortMessages` is stable. -/
theorem sortMessages_filter (ms : List SeqMessage) (k : Int) :
    (sortMessages ms).filter (fun x => x.order == k) =
      ms.filter (fun x => x.order == k) := by
  simpa using foldl_insert_filter k ms [] (by simp)

end DiagramParser

/-! ## Generic facts about `mapIdxFrom` -/

/-- Length of an indexed map. -/
theorem mapIdxFrom_length (f : Nat → α → β) :
    ∀ (n : Nat) (l : List α), (mapIdxFrom f n l).length = l.length := by
  intro n l
  induction l generalizing n with
  | nil => rfl
  | cons x xs ih => simp [mapIdxFrom, ih]

/-- Element lookup in an indexed map. -/
theorem mapIdxFrom_getElem? (f : Nat → α → β) :
    ∀ (n i : Nat) (l : List α),
      (mapIdxFrom f n l)[i]? = (l[i]?).map (f (n + i)) := by
  intro n i l
  induction l generalizing n i with
  | nil => simp [mapIdxFrom]
  | cons x xs ih =>
      cases i with
      | zero => simp [mapIdxFrom]
      | succ j =>
          simp only [mapIdxFrom, List.getElem?_cons_succ]
          rw [ih (n + 1) j]
          have : n + 1 + j = n + (j + 1) := by omega
          rw [this]

/-- Mapping over an indexed map. -/
theorem map_mapIdxFrom (f : Nat → α → β) (g : β → γ) :
    ∀ (n : Nat) (l : List α),
      (mapIdxFrom f n l).map g = mapIdxFrom (fun i x => g (f i x)) n l := by
  intro n l
  induction l generalizing n with
  | nil => rfl
  | cons x xs ih => simp [mapIdxFrom, ih]

/-- An indexed map that ignores its output index pointwise is the identity. -/
theorem mapIdxFrom_eq_self {f : Nat → α → α} (h : ∀ i x, f i x = x) :
    ∀ (n : Nat) (l : List α), mapIdxFrom f n l = l := by
  intro n l
  induction l generalizing n with
  | nil => rfl
  | cons x xs ih => simp [mapIdxFrom, h, ih]

/-! ## Claim theorems -/

/-- A concrete sequence diagram: two participants, messages out of order. -/
def seqD0 : UnifiedDiagram :=
  { type := .sequence
    participants := some [⟨"p1", "A", .actor⟩, ⟨"p2", "B", .object⟩]
    messages := some [⟨"m2", "p2", "p1", "reply", .ret, 2⟩,
                      ⟨"", "p1", "p2", "ask", .async, 1⟩] }

/-- C4: for every sequence diagram, the transformer's edges are exactly the
messages sorted ascending by their `order` field (a permutation of the
input messages, independent of input array order), `async` messages give an
animated edge and `return` messages a dashed edge. -/
theorem parseSequenceDiagram_order_law (d : UnifiedDiagram)
    (h : d.type = DiagramType.sequence) :
    (DiagramParser.parseUnifiedDiagram d).edges
      = mapIdxFrom DiagramParser.msgToEdge 0
          (DiagramParser.sortMessages (d.messages.getD [])) ∧
    (DiagramParser.sortMessages (d.messages.getD [])).Pairwise
      (fun a b => a.order ≤ b.order) ∧
    List.Perm (DiagramParser.sortMessages (d.messages.getD [])) (d.messages.getD []) ∧
    (∀ (i : Nat) (m : SeqMessage),
      (DiagramParser.msgToEdge i m).animated = (m.type == MessageType.async)) ∧
    (∀ (i : Nat) (m : SeqMessage), m.type = MessageType.ret →
      (DiagramParser.msgToEdge i m).style = some "5,5") := by
  refine ⟨?_, DiagramParser.sortMessages_pairwise _,
    DiagramParser.sortMessages_perm _, fun i m => rfl, fun i m hm => ?_⟩
  · simp [DiagramParser.parseUnifiedDiagram, h, DiagramParser.parseSequenceDiagram]
  · simp [DiagramParser.msgToEdge, hm]

/-- Witness for C4 at the concrete diagram `seqD0`. -/
theorem parseSequenceDiagram_order_law_witness :
    seqD0.type = DiagramType.sequence ∧
    ((DiagramParser.parseUnifiedDiagram seqD0).edges
      = mapIdxFrom DiagramParser.msgToEdge 0
          (DiagramParser.sortMessages (seqD0.messages.getD [])) ∧
    (DiagramParser.sortMessages (seqD0.messages.getD [])).Pairwise
      (fun a b => a.order ≤ b.order) ∧
    List.Perm (DiagramParser.sortMessages (seqD0.messages.getD []))
      (seqD0.messages.getD []) ∧
    (∀ (i : Nat) (m : SeqMessage),
      (DiagramParser.msgToEdge i m).animated = (m.type == MessageType.async)) ∧
    (∀ (i : Nat) (m : SeqMessage), m.type = MessageType.ret →
      (DiagramParser.msgToEdge i m).style = some "5,5")) :=
  ⟨rfl, parseSequenceDiagram_order_law seqD0 rfl⟩

/-- C10: the message sort is stable (messages with equal `order` keep their
relative input order, witnessed by filtering on any order value), and the
edge built from the i-th sorted message takes the synthesized id `msg-<i>`
exactly when the message id is missing/empty, `i` being the index in the
sorted list. -/
theorem sortMessages_stability_and_id_synthesis :
    (∀ (ms : List SeqMessage) (k : Int),
      (DiagramParser.sortMessages ms).filter (fun m => m.order == k)
        = ms.filter (fun m => m.order == k)) ∧
    (∀ (ms : List SeqMessage) (i : Nat) (m : SeqMessage),
      (DiagramParser.sortMessages ms)[i]? = some m →
        (mapIdxFrom DiagramParser.msgToEdge 0 (DiagramParser.sortMessages ms))[i]?
          = some (DiagramParser.msgToEdge i m) ∧
        (DiagramParser.msgToEdge i m).id
          = (if m.id = "" then "msg-" ++ toString i else m.id)) := by
  refine ⟨DiagramParser.sortMessages_filter, fun ms i m hm => ⟨?_, rfl⟩⟩
  rw [mapIdxFrom_getElem?, hm]
  simp

/-- Witness for C10: two messages share `order` 2; the sort keeps their
input order and the empty-id message at sorted index 0 gets id `msg-0`. -/
theorem sortMessages_stability_and_id_synthesis_witness :
    ((DiagramParser.sortMessages (seqD0.messages.getD [])).filter
        (fun m => m.order == (2 : Int))
      = (seqD0.messages.getD []).filter (fun m => m.order == (2 : Int))) ∧
    ((DiagramParser.sortMessages (seqD0.messages.getD []))[0]?
        = some ⟨"", "p1", "p2", "ask", .async, 1⟩ ∧
      ((mapIdxFrom DiagramParser.msgToEdge 0
          (DiagramParser.sortMessages (seqD0.messages.getD [])))[0]?
        = some (DiagramParser.msgToEdge 0 ⟨"", "p1", "p2", "ask", .async, 1⟩) ∧
      (DiagramParser.msgToEdge 0 (⟨"", "p1", "p2", "ask", .async, 1⟩ : SeqMessage)).id
        = (if ("" : String) = "" then "msg-" ++ toString (0 : Nat) else ""))) :=
  ⟨sortMessages_stability_and_id_synthesis.1 (seqD0.messages.getD []) 2,
   by decide,
   sortMessages_stability_and_id_synthesis.2 (seqD0.messages.getD []) 0
     ⟨"", "p1", "p2", "ask", .async, 1⟩ (by decide)⟩

/-- The class-kind reverse mapping undoes the class-kind forward mapping
exactly: reconstructing from transformer-produced nodes/edges recovers the
class and relationship lists. -/
theorem nodesToUnified_class_inverse (cs : List UMLClass) (rs : List UMLRelationship) :
    DiagramStore.nodesToUnifiedDiagram (cs.map DiagramParser.classNodeOf)
        (mapIdxFrom DiagramParser.relationshipEdgeOf 0 rs) DiagramType.classDiag =
      { type := .classDiag, classes := some cs, relationships := some rs } := by
  simp only [DiagramStore.nodesToUnifiedDiagram, UnifiedDiagram.mk.injEq]
  refine ⟨trivial, ?_, ?_, trivial, trivial, trivial, trivial, trivial, trivial,
    trivial, trivial, trivial, trivial, trivial⟩
  · -- nodes: every produced node has the classNode tag, and the data read
    -- back is the original class
    rw [List.filter_map]
    have hf : (fun n => n.type == "classNode") ∘ DiagramParser.classNodeOf
        = fun _ => true := by
      funext c
      simp [DiagramParser.classNodeOf]
    rw [hf, List.filter_true, List.map_map]
    have : ∀ c : UMLClass,
        ((fun n : DiagramNode =>
            match n.data with
            | .classData name attrs ops => (⟨n.id, name, attrs, ops⟩ : UMLClass)
            | _ => ⟨n.id, "", [], []⟩) ∘ DiagramParser.classNodeOf) c = c := by
      intro c
      simp [DiagramParser.classNodeOf]
    simp only [Option.some.injEq]
    calc cs.map _ = cs.map id := List.map_congr_left (fun c _ => this c)
      _ = cs := List.map_id cs
  · -- edges: source/target/type/label read back to the original relationship
    rw [map_mapIdxFrom]
    simp only [Option.some.injEq]
    apply mapIdxFrom_eq_self
    intro i r
    simp [DiagramParser.relationshipEdgeOf, DiagramStore.edgeDataRelType,
      DiagramStore.edgeDataLabel]

/-- C2 counterexample: for the concrete valid sequence diagram `seqD0`
(two participants, two messages) the composite
`transform ∘ graphToDiagram ∘ transform` loses every edge (the reverse
mapping reconstructs no `messages` collection), so its edge set differs
from `transform(seqD0)`'s, refuting the round-trip law as stated. -/
theorem roundTrip_fails_on_sequence :
    (DiagramParser.parseUnifiedDiagram
      (DiagramStore.nodesToUnifiedDiagram
        (DiagramParser.parseUnifiedDiagram seqD0).nodes
        (DiagramParser.parseUnifiedDiagram seqD0).edges
        DiagramType.sequence)).edges = [] ∧
    (DiagramParser.parseUnifiedDiagram seqD0).edges ≠ [] := by
  constructor
  · rfl
  · decide

/-- C2 (amended): for every diagram of the class kind the round trip is the
identity on the transform result — `transform (graphToDiagram (transform d))`
equals `transform d` on the nose (node data, edge source/target/type/label
and even ids and positions).  For the other kinds the reverse mapping drops
collections or fields and the law fails (see the counterexample). -/
theorem roundTrip_class_exact (d : UnifiedDiagram)
    (h : d.type = DiagramType.classDiag) :
    DiagramParser.parseUnifiedDiagram
      (DiagramStore.nodesToUnifiedDiagram
        (DiagramParser.parseUnifiedDiagram d).nodes
        (DiagramParser.parseUnifiedDiagram d).edges
        DiagramType.classDiag) =
    DiagramParser.parseUnifiedDiagram d := by
  have hd : DiagramParser.parseUnifiedDiagram d = DiagramParser.parseClassDiagram d := by
    simp [DiagramParser.parseUnifiedDiagram, h]
  rw [hd]
  show DiagramParser.parseUnifiedDiagram
      (DiagramStore.nodesToUnifiedDiagram
        ((d.classes.getD []).map DiagramParser.classNodeOf)
        (mapIdxFrom DiagramParser.relationshipEdgeOf 0 (d.relationships.getD []))
        DiagramType.classDiag) = _
  rw [nodesToUnified_class_inverse]
  rfl

/-- A concrete class diagram for the C2 witness. -/
def classD0 : UnifiedDiagram :=
  { type := .classDiag
    classes := some [⟨"u", "User", ["- id: string"], ["+ login()"]⟩,
                     ⟨"v", "Admin", [], []⟩]
    relationships := some [⟨"v", "u", .inheritance, some "isa"⟩] }

/-- Witness for C2 (amended) at the concrete diagram `classD0`. -/
theorem roundTrip_class_exact_witness :
    classD0.type = DiagramType.classDiag ∧
    DiagramParser.parseUnifiedDiagram
      (DiagramStore.nodesToUnifiedDiagram
        (DiagramParser.parseUnifiedDiagram classD0).nodes
        (DiagramParser.parseUnifiedDiagram classD0).edges
        DiagramType.classDiag) =
    DiagramParser.parseUnifiedDiagram classD0 :=
  ⟨rfl, roundTrip_class_exact classD0 rfl⟩

/-- C7: for every class diagram, the transformer produces one node per class
preserving name/attributes/operations exactly (order included) and one edge
per relationship in input order with the synthesized id
`edge-<source>-<target>-<index>`, preserving source, target, kind and label;
edge count equals relationship count.  The same characterization holds for
the legacy `parseToReactFlow`.  (Defensive copying is not observable for
pure values; the spread copies are visible in the source.) -/
theorem parseClassDiagram_fidelity (d : UnifiedDiagram)
    (h : d.type = DiagramType.classDiag) :
    (DiagramParser.parseUnifiedDiagram d).nodes.length = (d.classes.getD []).length ∧
    (DiagramParser.parseUnifiedDiagram d).edges.length =
      (d.relationships.getD []).length ∧
    (∀ (i : Nat) (c : UMLClass), (d.classes.getD [])[i]? = some c →
      (DiagramParser.parseUnifiedDiagram d).nodes[i]? =
        some ⟨c.id, "classNode", ⟨0, 0⟩,
          .classData c.name c.attributes c.operations⟩) ∧
    (∀ (i : Nat) (r : UMLRelationship), (d.relationships.getD [])[i]? = some r →
      (DiagramParser.parseUnifiedDiagram d).edges[i]? =
        some ⟨"edge-" ++ r.source ++ "-" ++ r.target ++ "-" ++ toString i,
          r.source, r.target, "relationshipEdge", none, false, none,
          .rel r.type r.label⟩) ∧
    (∀ (cs : List UMLClass) (rs : List UMLRelationship) (i : Nat),
      (UmlParser.parseToReactFlow cs rs).nodes[i]? =
        (cs[i]?).map UmlParser.classToNode ∧
      (UmlParser.parseToReactFlow cs rs).edges[i]? =
        (rs[i]?).map (fun r => UmlParser.relationshipToEdge r i)) := by
  have hd : DiagramParser.parseUnifiedDiagram d = DiagramParser.parseClassDiagram d := by
    simp [DiagramParser.parseUnifiedDiagram, h]
  refine ⟨?_, ?_, ?_, ?_, ?_⟩
  · simp [hd, DiagramParser.parseClassDiagram]
  · simp [hd, DiagramParser.parseClassDiagram, mapIdxFrom_length]
  · intro i c hc
    simp [hd, DiagramParser.parseClassDiagram, hc, DiagramParser.classNodeOf]
  · intro i r hr
    simp only [hd, DiagramParser.parseClassDiagram]
    rw [mapIdxFrom_getElem?, hr]
    simp [DiagramParser.relationshipEdgeOf]
  · intro cs rs i
    constructor
    · simp [UmlParser.parseToReactFlow]
    · simp only [UmlParser.parseToReactFlow]
      rw [mapIdxFrom_getElem?]
      simp

/-- Witness for C7 at the concrete diagram `classD0`. -/
theorem parseClassDiagram_fidelity_witness :
    classD0.type = DiagramType.classDiag ∧
    (DiagramParser.parseUnifiedDiagram classD0).nodes.length =
      (classD0.classes.getD []).length ∧
    (DiagramParser.parseUnifiedDiagram classD0).edges.length =
      (classD0.relationships.getD []).length ∧
    (∀ (i : Nat) (c : UMLClass), (classD0.classes.getD [])[i]? = some c →
      (DiagramParser.parseUnifiedDiagram classD0).nodes[i]? =
        some ⟨c.id, "classNode", ⟨0, 0⟩,
          .classData c.name c.attributes c.operations⟩) ∧
    (∀ (i : Nat) (r : UMLRelationship),
      (classD0.relationships.getD [])[i]? = some r →
      (DiagramParser.parseUnifiedDiagram classD0).edges[i]? =
        some ⟨"edge-" ++ r.source ++ "-" ++ r.target ++ "-" ++ toString i,
          r.source, r.target, "relationshipEdge", none, false, none,
          .rel r.type r.label⟩) ∧
    (∀ (cs : List UMLClass) (rs : List UMLRelationship) (i : Nat),
      (UmlParser.parseToReactFlow cs rs).nodes[i]? =
        (cs[i]?).map UmlParser.classToNode ∧
      (UmlParser.parseToReactFlow cs rs).edges[i]? =
        (rs[i]?).map (fun r => UmlParser.relationshipToEdge r i)) :=
  ⟨rfl, parseClassDiagram_fidelity classD0 rfl⟩

/-- C8: creating a project resets the live state (empty nodes/edges/messages,
`isLoading = false`), appends exactly one entry to the project index keeping
every previous entry in place, and activates the freshly allocated id. -/
theorem createProject_reset_law (s : DiagramStore.DiagramStoreState)
    (newId : String) (now : Int) (dt : DiagramType) :
    (DiagramStore.createProject s newId now dt).nodes = [] ∧
    (DiagramStore.createProject s newId now dt).edges = [] ∧
    (DiagramStore.createProject s newId now dt).messages = [] ∧
    (DiagramStore.createProject s newId now dt).isLoading = false ∧
    (DiagramStore.createProject s newId now dt).currentDiagramType = dt ∧
    (DiagramStore.createProject s newId now dt).projects.length =
      s.projects.length + 1 ∧
    (DiagramStore.createProject s newId now dt).projects.take s.projects.length =
      s.projects ∧
    ((DiagramStore.createProject s newId now dt).projects.getLast?).map
      (fun p => p.id) = some newId ∧
    (DiagramStore.createProject s newId now dt).currentProjectId = some newId := by
  refine ⟨rfl, rfl, rfl, rfl, rfl, ?_, ?_, ?_, rfl⟩
  · simp [DiagramStore.createProject]
  · simp [DiagramStore.createProject, List.take_left]
  · simp [DiagramStore.createProject]

namespace Storage

/-- A missing index means no stored project carries the id. -/
theorem findIndexById_none {id : String} :
    ∀ {ps : List StoredProject}, findIndexById id ps = none →
      ∀ q ∈ ps, q.id ≠ id := by
  intro ps
  induction ps with
  | nil => intro _ q hq; cases hq
  | cons x xs ih =>
      intro h q hq
      by_cases hx : x.id = id
      · simp [findIndexById, hx] at h
      · simp only [findIndexById, if_neg hx] at h
        have h' : findIndexById id xs = none := by
          cases hfx : findIndexById id xs with
          | none => rfl
          | some j => rw [hfx] at h; simp at h
        rcases List.mem_cons.mp hq with rfl | hq
        · exact hx
        · exact ih h' q hq

/-- A found index points at a stored project with the looked-up id. -/
theorem findIndexById_some {id : String} :
    ∀ {ps : List StoredProject} {i : Nat}, findIndexById id ps = some i →
      ∃ q, ps[i]? = some q ∧ q.id = id := by
  intro ps
  induction ps with
  | nil => intro i h; cases h
  | cons x xs ih =>
      intro i h
      by_cases hx : x.id = id
      · simp only [findIndexById, if_pos hx] at h
        cases h
        exact ⟨x, by simp, hx⟩
      · simp only [findIndexById, if_neg hx] at h
        cases hfx : findIndexById id xs with
        | none => rw [hfx] at h; simp at h
        | some j =>
            rw [hfx] at h
            have h2 : j + 1 = i := by simpa using h
            subst h2
            rcases ih hfx with ⟨q, hq1, hq2⟩
            exact ⟨q, by simpa using hq1, hq2⟩

/-- Setting an index to a project with the same id leaves the id list
unchanged. -/
theorem map_id_set {p : StoredProject} :
    ∀ (ps : List StoredProject) (i : Nat) (q : StoredProject),
      ps[i]? = some q → q.id = p.id →
      (ps.set i p).map (fun r => r.id) = ps.map (fun r => r.id) := by
  intro ps
  induction ps with
  | nil => intro i q h; cases h
  | cons x xs ih =>
      intro i q h hq
      cases i with
      | zero =>
          simp only [List.getElem?_cons_zero, Option.some.injEq] at h
          subst h
          simp [List.set, hq]
      | succ j =>
          simp only [List.getElem?_cons_succ] at h
          simp [List.set, ih j q h hq]

/-- One save preserves uniqueness of the stored ids. -/
theorem saveToStorage_nodup (ps : List StoredProject) (p : StoredProject)
    (h : (ps.map (fun q => q.id)).Nodup) :
    ((saveToStorage ps p).map (fun q => q.id)).Nodup := by
  unfold saveToStorage
  cases hfind : findIndexById p.id ps with
  | some i =>
      rcases findIndexById_some hfind with ⟨q, hq1, hq2⟩
      rw [map_id_set ps i q hq1 hq2]
      exact h
  | none =>
      have hnotin : p.id ∉ ps.map (fun q => q.id) := by
        intro hmem
        rcases List.mem_map.mp hmem with ⟨q, hq, hid⟩
        exact findIndexById_none hfind q hq hid
      simp only [List.map_append, List.map_cons, List.map_nil]
      exact List.Nodup.append h (List.nodup_singleton _)
        (by simpa [List.disjoint_singleton] using hnotin)

end Storage

/-- C9: saving a project whose id already exists replaces the stored record
in place at its index (same length, every other position untouched), and —
starting from unique stored ids — any sequence of saves preserves the
no-duplicate-ids invariant. -/
theorem saveToStorage_replace_law :
    (∀ (ps : List Storage.StoredProject) (p : Storage.StoredProject) (i : Nat),
      Storage.findIndexById p.id ps = some i →
        Storage.saveToStorage ps p = ps.set i p ∧
        (Storage.saveToStorage ps p).length = ps.length ∧
        ∀ j : Nat, j ≠ i → (Storage.saveToStorage ps p)[j]? = ps[j]?) ∧
    (∀ (ps saves : List Storage.StoredProject),
      (ps.map (fun q => q.id)).Nodup →
        ((saves.foldl Storage.saveToStorage ps).map (fun q => q.id)).Nodup) := by
  constructor
  · intro ps p i hfind
    have hset : Storage.saveToStorage ps p = ps.set i p := by
      unfold Storage.saveToStorage
      rw [hfind]
    refine ⟨hset, ?_, ?_⟩
    · rw [hset]; simp
    · intro j hj
      rw [hset]
      exact List.getElem?_set_ne (fun h => hj h.symm)
  · intro ps saves
    induction saves generalizing ps with
    | nil => intro h; simpa using h
    | cons p rest ih =>
        intro h
        exact ih _ (Storage.saveToStorage_nodup ps p h)

/-- Concrete stored projects for the C9 witness. -/
def storedA : Storage.StoredProject :=
  { id := "a", name := "P1", diagramType := .classDiag,
    diagram := { type := .classDiag }, messages := [],
    createdAt := "t0", updatedAt := "t0" }

/-- A second stored project with a distinct id. -/
def storedB : Storage.StoredProject :=
  { id := "b", name := "P2", diagramType := .classDiag,
    diagram := { type := .classDiag }, messages := [],
    createdAt := "t0", updatedAt := "t0" }

/-- An updated record reusing the id `"a"`. -/
def storedA2 : Storage.StoredProject :=
  { id := "a", name := "P1v2", diagramType := .sequence,
    diagram := { type := .sequence }, messages := [],
    createdAt := "t0", updatedAt := "t1" }

/-- Witness for C9: replacing the record with the existing id `"a"` in a
two-project store happens in place at index 0. -/
theorem saveToStorage_replace_law_witness :
    Storage.findIndexById storedA2.id [storedA, storedB] = some 0 ∧
    (Storage.saveToStorage [storedA, storedB] storedA2 =
        ([storedA, storedB] : List Storage.StoredProject).set 0 storedA2 ∧
      (Storage.saveToStorage [storedA, storedB] storedA2).length =
        ([storedA, storedB] : List Storage.StoredProject).length ∧
      ∀ j : Nat, j ≠ 0 →
        (Storage.saveToStorage [storedA, storedB] storedA2)[j]? =
          ([storedA, storedB] : List Storage.StoredProject)[j]?) :=
  ⟨by decide, saveToStorage_replace_law.1 [storedA, storedB] storedA2 0 (by decide)⟩

/-! ## Validator contracts and claims C1, C5, C6 -/

/-- The collection-level contract, written from the spec's words
(section 4.1 steps 1–3): an object with a known diagram-type tag whose
kind-required element collections are arrays. -/
def requiredCollectionsPresent (v : JValue) : DiagramType → Bool
  | .classDiag => v.isArrayField "classes" && v.isArrayField "relationships"
  | .useCase => v.isArrayField "actors" || v.isArrayField "useCases"
  | .activity => v.isArrayField "activities"
  | .sequence => v.isArrayField "participants"
  | .stateMachine => v.isArrayField "states"
  | .component => v.isArrayField "components"

/-- The full collection-level contract of a candidate value. -/
def collectionLevelContract (v : JValue) : Bool :=
  v.isObjectLike &&
    (match DiagramParser.typeFieldKind v with
     | some t => requiredCollectionsPresent v t
     | none => false)

/-- A well-formed class element as the spec words it (section 4.1 step 4):
non-empty string `id`/`name`, `attributes`/`operations` arrays of strings. -/
def specClassElemOK (c : JValue) : Bool :=
  (match c.getField "id" with | some (.str s) => s ≠ "" | _ => false) &&
  (match c.getField "name" with | some (.str s) => s ≠ "" | _ => false) &&
  UmlParser.isStrArrOpt (c.getField "attributes") &&
  UmlParser.isStrArrOpt (c.getField "operations")

/-- A well-formed class relationship as the spec words it: string
source/target referencing known ids, a valid kind, optional string label. -/
def specRelationshipOK (r : JValue) (ids : List String) : Bool :=
  UmlParser.refOK (r.getField "source") ids &&
  UmlParser.refOK (r.getField "target") ids &&
  UmlParser.isValidRelationshipType (r.getField "type") &&
  UmlParser.isOptionalStrOpt (r.getField "label")

/-- The element-level (deep) contract of the class kind, written from the
spec's words: every class element and every relationship well formed. -/
def classKindElementContract (v : JValue) : Bool :=
  match v.getField "classes", v.getField "relationships" with
  | some (.arr cs), some (.arr rs) =>
      cs.all specClassElemOK &&
      rs.all (fun r => specRelationshipOK r
        (cs.filterMap (fun c => c.getStrField "id")))
  | _, _ => false

/-- C1 (amended): the unified validator is total by construction, reports
`valid = true` exactly when its error list is empty, and `valid` holds
exactly when the candidate meets the collection-level contract — element-
level deviations inside the collections are not checked by it. -/
theorem validateUnifiedDiagram_valid_characterization (v : JValue) :
    ((DiagramParser.validateUnifiedDiagram v).valid = true ↔
      (DiagramParser.validateUnifiedDiagram v).errors = []) ∧
    ((DiagramParser.validateUnifiedDiagram v).valid = true ↔
      collectionLevelContract v = true) := by
  unfold DiagramParser.validateUnifiedDiagram collectionLevelContract
  cases hobj : v.isObjectLike with
  | false => simp
  | true =>
      simp only [hobj, Bool.true_and]
      rw [if_neg (by simp)]
      cases ht : DiagramParser.typeFieldKind v with
      | none => simp
      | some t =>
          refine ⟨List.isEmpty_iff, ?_⟩
          rw [List.isEmpty_iff]
          cases t with
          | classDiag =>
              cases ha : v.isArrayField "classes" <;>
                cases hb : v.isArrayField "relationships" <;>
                  simp [DiagramParser.requiredCollectionErrors,
                    requiredCollectionsPresent, ha, hb]
          | useCase =>
              cases ha : (v.isArrayField "actors" || v.isArrayField "useCases") <;>
                simp [DiagramParser.requiredCollectionErrors,
                  requiredCollectionsPresent, ha]
          | activity =>
              cases ha : v.isArrayField "activities" <;>
                simp [DiagramParser.requiredCollectionErrors,
                  requiredCollectionsPresent, ha]
          | sequence =>
              cases ha : v.isArrayField "participants" <;>
                simp [DiagramParser.requiredCollectionErrors,
                  requiredCollectionsPresent, ha]
          | stateMachine =>
              cases ha : v.isArrayField "states" <;>
                simp [DiagramParser.requiredCollectionErrors,
                  requiredCollectionsPresent, ha]
          | component =>
              cases ha : v.isArrayField "components" <;>
                simp [DiagramParser.requiredCollectionErrors,
                  requiredCollectionsPresent, ha]

/-- A class-kind candidate whose `classes` element `42` violates the class
kind's element contract. -/
def c1input : JValue :=
  .obj [("type", .str "class"), ("classes", .arr [.num 42]),
        ("relationships", .arr [])]

/-- C1 counterexample: `c1input` resolves to the class kind and deviates
from the kind's element-level contract (its only class element is the
number 42), yet the unified validator returns `valid = true` with no
errors — refuting "whenever the candidate deviates from the kind's
contract, it returns valid=false with at least one error". -/
theorem validateUnifiedDiagram_misses_element_contract :
    DiagramParser.typeFieldKind c1input = some DiagramType.classDiag ∧
    classKindElementContract c1input = false ∧
    DiagramParser.validateUnifiedDiagram c1input = ⟨true, []⟩ := by
  refine ⟨rfl, rfl, rfl⟩

/-- The spec's concrete legacy scenario input
`{classes:[], relationships:[{source:"a",target:"b",type:"association"}]}`
(no `type` field). -/
def c6input : JValue :=
  .obj [("classes", .arr []),
        ("relationships", .arr [.obj [("source", .str "a"), ("target", .str "b"),
          ("type", .str "association")]])]

/-- C6 counterexample: the legacy `validateUML` of the unified parser
(`diagramParser.ts`), on the scenario input with no `type` field, only
checks that `classes`/`relationships` are arrays and returns `valid = true`
with no errors — not the claimed `valid=false` citing the unresolved
references. -/
theorem diagramParser_validateUML_scenario_accepts :
    c6input.getField "type" = none ∧
    DiagramParser.validateUML c6input = ⟨true, []⟩ := by
  refine ⟨rfl, rfl⟩

/-- C6 (amended): with no truthy `type` field, the `diagramParser.ts` legacy
validator falls back to the shallow class shape — valid exactly when
`classes` and `relationships` are arrays, so the scenario input passes it —
while the deep legacy validator of `umlParser.ts` is the one that rejects
the scenario input with the two unresolved-reference errors for `a` and
`b`. -/
theorem legacy_fallback_law :
    (∀ (v : JValue), v.isObjectLike = true → v.truthyField "type" = false →
      ((DiagramParser.validateUML v).valid = true ↔
        (v.isArrayField "classes" = true ∧ v.isArrayField "relationships" = true))) ∧
    UmlParser.validateUML c6input =
      ⟨false, ["relationships[0]: Invalid class reference: a",
               "relationships[0]: Invalid class reference: b"]⟩ := by
  constructor
  · intro v hobj htype
    unfold DiagramParser.validateUML
    simp only [hobj, htype]
    rw [if_neg (by simp), if_neg (by simp)]
    cases ha : v.isArrayField "classes" <;>
      cases hb : v.isArrayField "relationships" <;> simp [ha, hb]
  · rfl

/-- Witness for C6 (amended) at the scenario input. -/
theorem legacy_fallback_law_witness :
    c6input.isObjectLike = true ∧ c6input.truthyField "type" = false ∧
    ((DiagramParser.validateUML c6input).valid = true ↔
      (c6input.isArrayField "classes" = true ∧
        c6input.isArrayField "relationships" = true)) :=
  ⟨rfl, rfl, legacy_fallback_law.1 c6input rfl rfl⟩

namespace UmlParser

/-- A string-field check errors exactly when the field is not a string. -/
theorem strFieldErrors_nil_iff (o : Option JValue) (e : String) :
    strFieldErrors o e = [] ↔ isStrOpt o = true := by
  cases o with
  | none => simp [strFieldErrors, isStrOpt]
  | some w => cases w <;> simp [strFieldErrors, isStrOpt]

/-- A string-field check contributes one error per violation. -/
theorem strFieldErrors_length (o : Option JValue) (e : String) :
    (strFieldErrors o e).length = if isStrOpt o then 0 else 1 := by
  cases o with
  | none => simp [strFieldErrors, isStrOpt]
  | some w => cases w <;> simp [strFieldErrors, isStrOpt]

/-- A string-array-field check errors exactly when the field is not an array
of strings. -/
theorem strArrayFieldErrors_nil_iff (o : Option JValue) (e1 e2 : String) :
    strArrayFieldErrors o e1 e2 = [] ↔ isStrArrOpt o = true := by
  cases o with
  | none => simp [strArrayFieldErrors, isStrArrOpt]
  | some w =>
      cases w <;> simp [strArrayFieldErrors, isStrArrOpt] <;> split <;> simp_all

/-- A string-array-field check contributes one error per violation. -/
theorem strArrayFieldErrors_length (o : Option JValue) (e1 e2 : String) :
    (strArrayFieldErrors o e1 e2).length = if isStrArrOpt o then 0 else 1 := by
  cases o with
  | none => simp [strArrayFieldErrors, isStrArrOpt]
  | some w =>
      cases w <;> simp [strArrayFieldErrors, isStrArrOpt] <;> split <;> simp_all

/-- A reference check errors exactly when the field is not a string naming a
known class id. -/
theorem refFieldErrors_nil_iff (o : Option JValue) (ids : List String)
    (m p : String) : refFieldErrors o ids m p = [] ↔ refOK o ids = true := by
  cases o with
  | none => simp [refFieldErrors, refOK]
  | some w =>
      cases w <;> simp [refFieldErrors, refOK] <;> split <;> simp_all

/-- A string reference to an unknown id always yields the
`Invalid class reference` error. -/
theorem refFieldErrors_mem_of_unknown (ids : List String) (m p s : String)
    (h : ids.contains s = false) :
    (p ++ ": Invalid class reference: " ++ s) ∈
      refFieldErrors (some (.str s)) ids m p := by
  simp only [refFieldErrors, h, Bool.false_eq_true, if_false]
  exact List.mem_singleton.mpr rfl

/-- An optional-label check errors exactly when a present label is not a
string. -/
theorem labelFieldErrors_nil_iff (o : Option JValue) (p : String) :
    labelFieldErrors o p = [] ↔ isOptionalStrOpt o = true := by
  cases o with
  | none => simp [labelFieldErrors, isOptionalStrOpt]
  | some w => cases w <;> simp [labelFieldErrors, isOptionalStrOpt]

/-- A field read succeeds only on objects. -/
theorem isObjectLike_of_getField_eq_some {v : JValue} {k : String} {w : JValue}
    (h : v.getField k = some w) : v.isObjectLike = true := by
  cases v <;> first | rfl | simp [JValue.getField] at h

end UmlParser

/-- The shallow well-formedness of a class element that the code actually
checks: string `id`/`name` (emptiness not enforced), `attributes` and
`operations` arrays of strings. -/
def wellFormedClassShallow (c : JValue) : Bool :=
  c.isObjectLike &&
  UmlParser.isStrOpt (c.getField "id") &&
  UmlParser.isStrOpt (c.getField "name") &&
  UmlParser.isStrArrOpt (c.getField "attributes") &&
  UmlParser.isStrArrOpt (c.getField "operations")

/-- The number of violated fields of an object class element. -/
def classViolationCount (c : JValue) : Nat :=
  (if UmlParser.isStrOpt (c.getField "id") then 0 else 1) +
  (if UmlParser.isStrOpt (c.getField "name") then 0 else 1) +
  (if UmlParser.isStrArrOpt (c.getField "attributes") then 0 else 1) +
  (if UmlParser.isStrArrOpt (c.getField "operations") then 0 else 1)

/-- The well-formedness of a relationship that the code checks: an object
whose source/target are strings referencing known ids, with a valid kind
and an absent-or-string label. -/
def wellFormedRelationship (r : JValue) (ids : List String) : Bool :=
  r.isObjectLike &&
  UmlParser.refOK (r.getField "source") ids &&
  UmlParser.refOK (r.getField "target") ids &&
  UmlParser.isValidRelationshipType (r.getField "type") &&
  UmlParser.isOptionalStrOpt (r.getField "label")

/-- If some element of the list produces a nonempty error list at every
index, the concatenated per-index errors are nonempty. -/
theorem flatten_mapIdxFrom_ne_nil (f : Nat → α → List β) (x : α)
    (hx : ∀ i, f i x ≠ []) :
    ∀ (l : List α) (n : Nat), x ∈ l → (mapIdxFrom f n l).flatten ≠ [] := by
  intro l
  induction l with
  | nil => intro n h; cases h
  | cons y ys ih =>
      intro n h
      rcases List.mem_cons.mp h with rfl | h
      · simp only [mapIdxFrom, List.flatten_cons, ne_eq, List.append_eq_nil]
        intro ⟨h1, _⟩
        exact hx n h1
      · simp only [mapIdxFrom, List.flatten_cons, ne_eq, List.append_eq_nil]
        intro ⟨_, h2⟩
        exact ih (n + 1) h h2

/-- `validateClass` accepts exactly the shallowly well-formed class
elements. -/
theorem validateClass_nil_iff (cls : JValue) (i : Nat) :
    UmlParser.validateClass cls i = [] ↔ wellFormedClassShallow cls = true := by
  unfold UmlParser.validateClass wellFormedClassShallow
  cases hobj : cls.isObjectLike with
  | false => simp [hobj]
  | true =>
      simp [hobj, List.append_eq_nil, UmlParser.strFieldErrors_nil_iff,
        UmlParser.strArrayFieldErrors_nil_iff, and_assoc]

/-- On object input, `validateClass` emits exactly one error per violated
field. -/
theorem validateClass_length_eq (cls : JValue) (i : Nat)
    (hobj : cls.isObjectLike = true) :
    (UmlParser.validateClass cls i).length = classViolationCount cls := by
  unfold UmlParser.validateClass classViolationCount
  simp only [hobj]
  rw [if_neg (by simp)]
  simp only [List.length_append, UmlParser.strFieldErrors_length,
    UmlParser.strArrayFieldErrors_length]

/-- `validateRelationship` accepts exactly the well-formed relationships. -/
theorem validateRelationship_nil_iff (rel : JValue) (i : Nat)
    (ids : List String) :
    UmlParser.validateRelationship rel i ids = [] ↔
      wellFormedRelationship rel ids = true := by
  unfold UmlParser.validateRelationship wellFormedRelationship
  cases hobj : rel.isObjectLike with
  | false => simp [hobj]
  | true =>
      simp [hobj, List.append_eq_nil, UmlParser.refFieldErrors_nil_iff,
        UmlParser.labelFieldErrors_nil_iff, and_assoc]

/-- A string `source` referencing an unknown id always yields its
`Invalid class reference` error. -/
theorem validateRelationship_mem_source (rel : JValue) (i : Nat)
    (ids : List String) (s : String)
    (hs : rel.getField "source" = some (.str s))
    (hcontains : ids.contains s = false) :
    (s!"relationships[{i}]" ++ ": Invalid class reference: " ++ s) ∈
      UmlParser.validateRelationship rel i ids := by
  have hobj := UmlParser.isObjectLike_of_getField_eq_some hs
  unfold UmlParser.validateRelationship
  simp only [hobj]
  rw [if_neg (by simp), hs]
  have hm := UmlParser.refFieldErrors_mem_of_unknown ids
    (s!"relationships[{i}]" ++ ": Missing required field: source")
    s!"relationships[{i}]" s hcontains
  simp only [List.mem_append]
  tauto

/-- A string `target` referencing an unknown id always yields its
`Invalid class reference` error. -/
theorem validateRelationship_mem_target (rel : JValue) (i : Nat)
    (ids : List String) (s : String)
    (hs : rel.getField "target" = some (.str s))
    (hcontains : ids.contains s = false) :
    (s!"relationships[{i}]" ++ ": Invalid class reference: " ++ s) ∈
      UmlParser.validateRelationship rel i ids := by
  have hobj := UmlParser.isObjectLike_of_getField_eq_some hs
  unfold UmlParser.validateRelationship
  simp only [hobj]
  rw [if_neg (by simp), hs]
  have hm := UmlParser.refFieldErrors_mem_of_unknown ids
    (s!"relationships[{i}]" ++ ": Missing required field: target")
    s!"relationships[{i}]" s hcontains
  simp only [List.mem_append]
  tauto

/-- A nonempty list is not `isEmpty`. -/
theorem isEmpty_eq_false_of_ne_nil {l : List α} (h : l ≠ []) :
    l.isEmpty = false := by
  cases l with
  | nil => exact absurd rfl h
  | cons x xs => rfl

/-- With both collections present as arrays, the deep validator runs its
element-level phase. -/
theorem validateUML_eq_deep (v : JValue) (classes relationships : List JValue)
    (hc : v.getField "classes" = some (.arr classes))
    (hr : v.getField "relationships" = some (.arr relationships)) :
    UmlParser.validateUML v = UmlParser.validateUMLDeep classes relationships := by
  have hobj := UmlParser.isObjectLike_of_getField_eq_some hc
  unfold UmlParser.validateUML
  simp only [hobj]
  rw [if_neg (by simp)]
  split
  · rename_i cs rs heq1 heq2
    rw [hc] at heq1
    rw [hr] at heq2
    cases heq1
    cases heq2
    rfl
  · rename_i hfail
    exact (hfail classes relationships (hc ▸ rfl) (hr ▸ rfl)).elim

/-- A relationship whose string `source` references no collected class id
makes the whole deep validation fail. -/
theorem validateUML_invalid_of_unknown_ref (v : JValue)
    (classes relationships : List JValue)
    (hc : v.getField "classes" = some (.arr classes))
    (hr : v.getField "relationships" = some (.arr relationships))
    (r : JValue) (hrmem : r ∈ relationships) (s : String)
    (hs : r.getField "source" = some (.str s))
    (hcontains : (UmlParser.collectClassIds classes).contains s = false) :
    (UmlParser.validateUML v).valid = false := by
  rw [validateUML_eq_deep v classes relationships hc hr]
  have hne : ∀ i : Nat,
      UmlParser.validateRelationship r i (UmlParser.collectClassIds classes) ≠ [] := by
    intro i heq
    have hwf := (validateRelationship_nil_iff r i _).mp heq
    have hnotmem : s ∉ UmlParser.collectClassIds classes := by
      simpa using hcontains
    have hfalse : UmlParser.refOK (r.getField "source")
        (UmlParser.collectClassIds classes) = false := by
      simp [UmlParser.refOK, hs, hnotmem]
    simp [wellFormedRelationship, hfalse] at hwf
  have hfl := flatten_mapIdxFrom_ne_nil
    (fun i rr => UmlParser.validateRelationship rr i
      (UmlParser.collectClassIds classes)) r hne relationships 0 hrmem
  have hcat : (mapIdxFrom (fun i c => UmlParser.validateClass c i) 0 classes).flatten ++
      (mapIdxFrom (fun i rr => UmlParser.validateRelationship rr i
        (UmlParser.collectClassIds classes)) 0 relationships).flatten ≠ [] := by
    intro h
    exact hfl (List.append_eq_nil.mp h).2
  have hvalid : (UmlParser.validateUMLDeep classes relationships).valid =
      ((mapIdxFrom (fun i c => UmlParser.validateClass c i) 0 classes).flatten ++
        (mapIdxFrom (fun i rr => UmlParser.validateRelationship rr i
          (UmlParser.collectClassIds classes)) 0 relationships).flatten).isEmpty := rfl
  rw [hvalid]
  exact isEmpty_eq_false_of_ne_nil hcat

/-- C5 (amended): the deep class-kind validation checks that `id`/`name` are
strings (emptiness is NOT enforced) and `attributes`/`operations` arrays of
strings, with exactly one position-indexed error per violated field; each
relationship must be an object with string `source`/`target` referencing a
collected class id, a valid relationship kind and an absent-or-string
label; a string reference to an unknown id always produces an
`Invalid class reference` error, and such a relationship makes the whole
validation return `valid = false`. -/
theorem validateUML_deep_validation_law :
    (∀ (cls : JValue) (i : Nat),
      (UmlParser.validateClass cls i = [] ↔ wellFormedClassShallow cls = true)) ∧
    (∀ (cls : JValue) (i : Nat), cls.isObjectLike = true →
      (UmlParser.validateClass cls i).length = classViolationCount cls) ∧
    (∀ (rel : JValue) (i : Nat) (ids : List String),
      (UmlParser.validateRelationship rel i ids = [] ↔
        wellFormedRelationship rel ids = true)) ∧
    (∀ (rel : JValue) (i : Nat) (ids : List String) (s : String),
      rel.getField "source" = some (.str s) → ids.contains s = false →
        (s!"relationships[{i}]" ++ ": Invalid class reference: " ++ s) ∈
          UmlParser.validateRelationship rel i ids) ∧
    (∀ (rel : JValue) (i : Nat) (ids : List String) (s : String),
      rel.getField "target" = some (.str s) → ids.contains s = false →
        (s!"relationships[{i}]" ++ ": Invalid class reference: " ++ s) ∈
          UmlParser.validateRelationship rel i ids) ∧
    (∀ (v : JValue) (classes relationships : List JValue),
      v.getField "classes" = some (.arr classes) →
      v.getField "relationships" = some (.arr relationships) →
      ∀ r ∈ relationships, ∀ s : String,
        r.getField "source" = some (.str s) →
        (UmlParser.collectClassIds classes).contains s = false →
        (UmlParser.validateUML v).valid = false) :=
  ⟨validateClass_nil_iff, validateClass_length_eq, validateRelationship_nil_iff,
   validateRelationship_mem_source, validateRelationship_mem_target,
   fun v cs rs hc hr r hrmem s hs hcont =>
     validateUML_invalid_of_unknown_ref v cs rs hc hr r hrmem s hs hcont⟩

/-- The class element with empty `id` and `name` strings. -/
def c5class : JValue :=
  .obj [("id", .str ""), ("name", .str ""), ("attributes", .arr []),
        ("operations", .arr [])]

/-- A legacy class diagram containing only `c5class`. -/
def c5input : JValue :=
  .obj [("classes", .arr [c5class]), ("relationships", .arr [])]

/-- C5 counterexample: the claim says id/name are checked to be NON-EMPTY
strings; `c5class` has empty id and name (violating that reading, witnessed
by the spec-worded `specClassElemOK`), yet `validateClass` emits no error
and the whole deep validation accepts the diagram. -/
theorem validateUML_accepts_empty_name :
    specClassElemOK c5class = false ∧
    UmlParser.validateClass c5class 0 = [] ∧
    UmlParser.validateUML c5input = ⟨true, []⟩ :=
  ⟨rfl, rfl, rfl⟩

/-- A relationship object referencing the unknown ids `a` and `b`. -/
def relUnknown : JValue :=
  .obj [("source", .str "a"), ("target", .str "b"), ("type", .str "association")]

/-- Witness for C5 (amended): the dangling `source` reference `a` of
`relUnknown` produces its indexed error against an empty id set. -/
theorem validateUML_deep_validation_law_witness :
    relUnknown.getField "source" = some (.str "a") ∧
    ([] : List String).contains "a" = false ∧
    ((s!"relationships[{(0 : Nat)}]" ++ ": Invalid class reference: " ++ "a") ∈
      UmlParser.validateRelationship relUnknown 0 []) :=
  ⟨rfl, rfl, validateUML_deep_validation_law.2.2.2.1 relUnknown 0 [] "a" rfl rfl⟩

/-! ## Geometry of the layered placement (claim C3) -/

namespace LayoutEngine

/-- The main-axis top of a placed node's box after the center-to-top-left
conversion: centered in its rank band. -/
def entryMainTop (vertical : Bool) (e : PlacedEntry) : Int :=
  e.mainStart + e.rowMain / 2 - mainSize vertical e.dims / 2

/-- Two placed nodes are separated on the cross axis or on the main axis. -/
def entriesSeparated (vertical : Bool) (e1 e2 : PlacedEntry) : Prop :=
  e1.crossLeft + crossSize vertical e1.dims ≤ e2.crossLeft ∨
  e2.crossLeft + crossSize vertical e2.dims ≤ e1.crossLeft ∨
  entryMainTop vertical e1 + mainSize vertical e1.dims ≤ entryMainTop vertical e2 ∨
  entryMainTop vertical e2 + mainSize vertical e2.dims ≤ entryMainTop vertical e1

/-- Separation is symmetric. -/
theorem entriesSeparated_symm (vertical : Bool) :
    Symmetric (entriesSeparated vertical) := by
  intro a b h
  unfold entriesSeparated at h ⊢
  tauto

/-- `placeRow` preserves ids and dimensions in order. -/
theorem placeRow_map_id_dims (vertical : Bool) (sep : Int) :
    ∀ (row : List (String × Dims)) (off : Int),
      (placeRow vertical sep row off).map (fun x => (x.1, x.2.1)) = row := by
  intro row
  induction row with
  | nil => intro off; rfl
  | cons p rest ih => intro off; simp [placeRow, ih]

/-- Members of a placed row come from the row. -/
theorem placeRow_mem_proj {vertical : Bool} {sep : Int}
    {row : List (String × Dims)} {off : Int} {x : String × Dims × Int}
    (hx : x ∈ placeRow vertical sep row off) : (x.1, x.2.1) ∈ row := by
  rw [← placeRow_map_id_dims vertical sep row off]
  exact List.mem_map_of_mem _ hx

/-- Cross offsets in a placed row never precede the starting offset. -/
theorem placeRow_crossLeft_ge (vertical : Bool) (sep : Int) (hsep : 0 ≤ sep) :
    ∀ (row : List (String × Dims)) (off : Int),
      (∀ p ∈ row, 0 ≤ crossSize vertical p.2) →
      ∀ x ∈ placeRow vertical sep row off, off ≤ x.2.2 := by
  intro row
  induction row with
  | nil => intro off _ x hx; cases hx
  | cons p rest ih =>
      intro off hcs x hx
      rcases List.mem_cons.mp hx with rfl | hx2
      · exact le_refl _
      · have h1 : 0 ≤ crossSize vertical p.2 := hcs p (List.mem_cons_self p rest)
        have h2 := ih (off + crossSize vertical p.2 + sep)
          (fun q hq => hcs q (List.mem_cons_of_mem p hq)) x hx2
        omega

/-- Boxes in a placed row are separated in order on the cross axis. -/
theorem placeRow_pairwise (vertical : Bool) (sep : Int) (hsep : 0 ≤ sep) :
    ∀ (row : List (String × Dims)) (off : Int),
      (∀ p ∈ row, 0 ≤ crossSize vertical p.2) →
      (placeRow vertical sep row off).Pairwise
        (fun a b => a.2.2 + crossSize vertical a.2.1 ≤ b.2.2) := by
  intro row
  induction row with
  | nil => intro off _; exact List.Pairwise.nil
  | cons p rest ih =>
      intro off hcs
      refine List.pairwise_cons.mpr ⟨?_, ih _ (fun q hq => hcs q (List.mem_cons_of_mem p hq))⟩
      intro b hb
      have h2 := placeRow_crossLeft_ge vertical sep hsep rest
        (off + crossSize vertical p.2 + sep)
        (fun q hq => hcs q (List.mem_cons_of_mem p hq)) b hb
      simp only
      omega

/-- A fold of `max` never drops below its initial value. -/
theorem foldl_max_init_le (f : α → Int) :
    ∀ (l : List α) (a : Int), a ≤ l.foldl (fun m e => max m (f e)) a := by
  intro l
  induction l with
  | nil => intro a; exact le_refl a
  | cons x xs ih =>
      intro a
      exact le_trans (le_max_left a (f x)) (ih (max a (f x)))

/-- A fold of `max` dominates every member. -/
theorem foldl_max_mem_le (f : α → Int) :
    ∀ (l : List α) (a : Int) (p : α), p ∈ l →
      f p ≤ l.foldl (fun m e => max m (f e)) a := by
  intro l
  induction l with
  | nil => intro a p hp; cases hp
  | cons x xs ih =>
      intro a p hp
      rcases List.mem_cons.mp hp with rfl | hp2
      · exact le_trans (le_max_right a (f p)) (foldl_max_init_le f xs _)
      · exact ih _ p hp2

/-- Every box's main extent fits in its row's band thickness. -/
theorem le_rowMaxMain (vertical : Bool) (row : List (String × Dims))
    (p : String × Dims) (hp : p ∈ row) :
    mainSize vertical p.2 ≤ rowMaxMain vertical row :=
  foldl_max_mem_le _ row 0 p hp

/-- Band thickness is nonnegative. -/
theorem rowMaxMain_nonneg (vertical : Bool) (row : List (String × Dims)) :
    0 ≤ rowMaxMain vertical row :=
  foldl_max_init_le _ row 0

/-- A centered box stays inside its rank band on the main axis. -/
theorem entryMainTop_bounds (vertical : Bool) (e : PlacedEntry)
    (h0 : 0 ≤ mainSize vertical e.dims)
    (h1 : mainSize vertical e.dims ≤ e.rowMain) :
    e.mainStart ≤ entryMainTop vertical e ∧
    entryMainTop vertical e + mainSize vertical e.dims ≤ e.mainStart + e.rowMain := by
  unfold entryMainTop
  constructor <;> omega

end LayoutEngine

namespace LayoutEngine

/-- `placeRows` preserves ids and dimensions: flattening the rows. -/
theorem placeRows_map_id_dims (vertical : Bool) (ns rs : Int) :
    ∀ (rows : List (List (String × Dims))) (off : Int),
      (placeRows vertical ns rs rows off).map (fun e => (e.id, e.dims)) =
        rows.flatten := by
  intro rows
  induction rows with
  | nil => intro off; rfl
  | cons row rest ih =>
      intro off
      simp only [placeRows, List.map_append, List.map_map, List.flatten_cons, ih]
      congr 1
      have := placeRow_map_id_dims vertical ns row 0
      calc (placeRow vertical ns row 0).map
            ((fun e : PlacedEntry => (e.id, e.dims)) ∘
              (fun x : String × Dims × Int =>
                (⟨x.1, x.2.1, x.2.2, off, rowMaxMain vertical row⟩ : PlacedEntry)))
          = (placeRow vertical ns row 0).map (fun x => (x.1, x.2.1)) := rfl
        _ = row := this

/-- Every placed entry originates in some row, beyond the starting offset,
with its row's band thickness. -/
theorem placeRows_mem (vertical : Bool) (ns rs : Int) (hrs : 0 ≤ rs) :
    ∀ (rows : List (List (String × Dims))) (off : Int),
      ∀ e ∈ placeRows vertical ns rs rows off,
        ∃ row ∈ rows, (e.id, e.dims) ∈ row ∧
          e.rowMain = rowMaxMain vertical row ∧ off ≤ e.mainStart := by
  intro rows
  induction rows with
  | nil => intro off e he; cases he
  | cons row rest ih =>
      intro off e he
      rcases List.mem_append.mp he with he1 | he2
      · rcases List.mem_map.mp he1 with ⟨x, hx, rfl⟩
        refine ⟨row, List.mem_cons_self row rest, ?_, rfl, le_refl _⟩
        exact placeRow_mem_proj hx
      · rcases ih (off + rowMaxMain vertical row + rs) e he2 with
          ⟨row2, hrow2, hmem, hmain, hoff⟩
        refine ⟨row2, List.mem_cons_of_mem row hrow2, hmem, hmain, ?_⟩
        have := rowMaxMain_nonneg vertical row
        omega

/-- All placed entries are pairwise separated (same row: cross axis;
different rows: main axis). -/
theorem placeRows_pairwise (vertical : Bool) (ns rs : Int)
    (hns : 0 ≤ ns) (hrs : 0 ≤ rs) :
    ∀ (rows : List (List (String × Dims))) (off : Int),
      (∀ row ∈ rows, ∀ p ∈ row,
        0 ≤ crossSize vertical p.2 ∧ 0 ≤ mainSize vertical p.2) →
      (placeRows vertical ns rs rows off).Pairwise (entriesSeparated vertical) := by
  intro rows
  induction rows with
  | nil => intro off _; exact List.Pairwise.nil
  | cons row rest ih =>
      intro off hdims
      have hdrow : ∀ p ∈ row, 0 ≤ crossSize vertical p.2 ∧ 0 ≤ mainSize vertical p.2 :=
        hdims row (List.mem_cons_self row rest)
      have hdrest : ∀ r ∈ rest, ∀ p ∈ r,
          0 ≤ crossSize vertical p.2 ∧ 0 ≤ mainSize vertical p.2 :=
        fun r hr => hdims r (List.mem_cons_of_mem row hr)
      simp only [placeRows]
      rw [List.pairwise_append]
      refine ⟨?_, ih _ hdrest, ?_⟩
      · -- inside one row: cross-axis separation
        rw [List.pairwise_map]
        have hp := placeRow_pairwise vertical ns hns row 0 (fun p hp => (hdrow p hp).1)
        refine hp.imp ?_
        intro a b hab
        exact Or.inl hab
      · -- across rows: main-axis separation
        intro a ha b hb
        rcases List.mem_map.mp ha with ⟨x, hx, rfl⟩
        set ea : PlacedEntry := ⟨x.1, x.2.1, x.2.2, off, rowMaxMain vertical row⟩ with hea
        have hxmem : (x.1, x.2.1) ∈ row := placeRow_mem_proj hx
        have hmsa0 : 0 ≤ mainSize vertical ea.dims := (hdrow _ hxmem).2
        have hmsa1 : mainSize vertical ea.dims ≤ ea.rowMain :=
          le_rowMaxMain vertical row (x.1, x.2.1) hxmem
        have hba := entryMainTop_bounds vertical ea hmsa0 hmsa1
        rcases placeRows_mem vertical ns rs hrs rest
            (off + rowMaxMain vertical row + rs) b hb with
          ⟨row2, hrow2, hbmem, hbmain, hboff⟩
        have hmsb0 : 0 ≤ mainSize vertical b.dims := (hdrest row2 hrow2 _ hbmem).2
        have hmsb1 : mainSize vertical b.dims ≤ b.rowMain := by
          rw [hbmain]
          exact le_rowMaxMain vertical row2 (b.id, b.dims) hbmem
        have hbb := entryMainTop_bounds vertical b hmsb0 hmsb1
        refine Or.inr (Or.inr (Or.inl ?_))
        have h1 : entryMainTop vertical ea + mainSize vertical ea.dims ≤
            ea.mainStart + ea.rowMain := hba.2
        have h2 : b.mainStart ≤ entryMainTop vertical b := hbb.1
        have h3 : ea.mainStart = off := rfl
        have h4 : ea.rowMain = rowMaxMain vertical row := rfl
        omega

end LayoutEngine

namespace LayoutEngine

/-- `find?` by a key returns the unique element carrying that key. -/
theorem find?_key_eq_some (key : α → String) :
    ∀ (l : List α), (l.map key).Nodup → ∀ x ∈ l,
      l.find? (fun y => key y = key x) = some x := by
  intro l
  induction l with
  | nil => intro _ x hx; cases hx
  | cons a as ih =>
      intro hn x hx
      rcases List.mem_cons.mp hx with rfl | hx2
      · simp [List.find?]
      · have hne : key a ≠ key x := by
          intro he
          have hm : key x ∈ as.map key := List.mem_map.mpr ⟨x, hx2, rfl⟩
          rw [← he] at hm
          exact (List.nodup_cons.mp hn).1 hm
        rw [List.find?_cons_of_neg _ (by simp [hne])]
        exact ih (List.nodup_cons.mp hn).2 x hx2

/-- The deduplication worker is the identity on duplicate-free lists whose
elements are unseen. -/
theorem dedupIdsAux_eq_self :
    ∀ (l seen : List String), l.Nodup → (∀ x ∈ l, ¬ x ∈ seen) →
      dedupIdsAux seen l = l := by
  intro l
  induction l with
  | nil => intro seen _ _; rfl
  | cons i rest ih =>
      intro seen h hseen
      have hni : ¬ i ∈ seen := hseen i (List.mem_cons_self i rest)
      rw [dedupIdsAux, if_neg (by simp [hni])]
      congr 1
      refine ih (i :: seen) (List.nodup_cons.mp h).2 ?_
      intro x hx
      rw [List.mem_cons]
      rintro (rfl | hxs)
      · exact (List.nodup_cons.mp h).1 hx
      · exact hseen x (List.mem_cons_of_mem i hx) hxs

/-- Deduplication is the identity on lists without duplicates. -/
theorem dedupIds_eq_self : ∀ {l : List String}, l.Nodup → dedupIds l = l := by
  intro l h
  exact dedupIdsAux_eq_self l [] h (fun x _ hx => by cases hx)

/-- One relaxation sweep preserves the key list. -/
theorem relaxEdges_map_fst (es : List (String × String)) :
    ∀ (rm : List (String × Nat)),
      (relaxEdges es rm).map Prod.fst = rm.map Prod.fst := by
  induction es with
  | nil => intro rm; rfl
  | cons e rest ih =>
      intro rm
      have hstep : (rm.map (fun p =>
          if p.1 = e.2 then (p.1, max p.2 (lookupRank rm e.1 + 1)) else p)).map Prod.fst =
          rm.map Prod.fst := by
        rw [List.map_map]
        refine List.map_congr_left ?_
        intro p _
        by_cases hp : p.1 = e.2 <;> simp [hp]
      calc (relaxEdges (e :: rest) rm).map Prod.fst
          = (relaxEdges rest (rm.map _)).map Prod.fst := rfl
        _ = (rm.map _).map Prod.fst := ih _
        _ = rm.map Prod.fst := hstep

/-- Iterated relaxation preserves the key list. -/
theorem foldl_relax_map_fst (es : List (String × String)) :
    ∀ (sweeps : List Nat) (rm : List (String × Nat)),
      (sweeps.foldl (fun rm2 _ => relaxEdges es rm2) rm).map Prod.fst =
        rm.map Prod.fst := by
  intro sweeps
  induction sweeps with
  | nil => intro rm; rfl
  | cons s rest ih =>
      intro rm
      rw [List.foldl_cons, ih, relaxEdges_map_fst]

/-- Rank computation preserves the id list as keys. -/
theorem computeRanks_map_fst (ids : List String) (es : List (String × String)) :
    (computeRanks ids es).map Prod.fst = ids := by
  unfold computeRanks
  rw [foldl_relax_map_fst, List.map_map]
  calc ids.map (Prod.fst ∘ fun i => (i, 0))
      = ids.map id := List.map_congr_left (fun i _ => rfl)
    _ = ids := List.map_id ids

end LayoutEngine

namespace LayoutEngine

/-- A fold of `max` over naturals never drops below its initial value. -/
theorem nat_foldl_max_init_le (f : α → Nat) :
    ∀ (l : List α) (a : Nat), a ≤ l.foldl (fun m e => max m (f e)) a := by
  intro l
  induction l with
  | nil => intro a; exact le_refl a
  | cons x xs ih =>
      intro a
      exact le_trans (le_max_left a (f x)) (ih (max a (f x)))

/-- A fold of `max` over naturals dominates every member. -/
theorem nat_foldl_max_mem_le (f : α → Nat) :
    ∀ (l : List α) (a : Nat) (p : α), p ∈ l →
      f p ≤ l.foldl (fun m e => max m (f e)) a := by
  intro l
  induction l with
  | nil => intro a p hp; cases hp
  | cons x xs ih =>
      intro a p hp
      rcases List.mem_cons.mp hp with rfl | hp2
      · exact le_trans (le_max_right a (f p)) (nat_foldl_max_init_le f xs _)
      · exact ih _ p hp2

/-- Every looked-up rank is bounded by the maximum rank. -/
theorem lookupRank_le_maxRankOf (rm : List (String × Nat)) (i : String) :
    lookupRank rm i ≤ maxRankOf rm := by
  unfold lookupRank maxRankOf
  cases hfind : rm.find? (fun p => p.1 = i) with
  | none => exact Nat.zero_le _
  | some q =>
      have hq : q ∈ rm := List.mem_of_find?_eq_some hfind
      show q.2 ≤ rm.foldl (fun m p => max m p.2) 0
      exact nat_foldl_max_mem_le (fun p => p.2) rm 0 q hq

/-- The dimensions registered for the key of a member, when keys are
unique. -/
theorem dimsOfId_eq (gnodes : List (String × Dims))
    (hnodup : (gnodes.map Prod.fst).Nodup) (p : String × Dims)
    (hp : p ∈ gnodes) : dimsOfId gnodes p.1 = p.2 := by
  unfold dimsOfId
  have hrevn : (gnodes.reverse.map Prod.fst).Nodup := by
    rw [List.map_reverse]
    exact List.nodup_reverse.mpr hnodup
  have hrevm : p ∈ gnodes.reverse := List.mem_reverse.mpr hp
  have := find?_key_eq_some Prod.fst gnodes.reverse hrevn p hrevm
  rw [this]
  rfl

/-- Under unique ids, rebuilding the entry list recovers the node list. -/
theorem entries_eq_gnodes (gnodes : List (String × Dims))
    (hnodup : (gnodes.map Prod.fst).Nodup) :
    (dedupIds (gnodes.map Prod.fst)).map (fun i => (i, dimsOfId gnodes i)) =
      gnodes := by
  rw [dedupIds_eq_self hnodup, List.map_map]
  calc gnodes.map ((fun i => (i, dimsOfId gnodes i)) ∘ Prod.fst)
      = gnodes.map id := by
        refine List.map_congr_left ?_
        intro p hp
        show (p.1, dimsOfId gnodes p.1) = p
        rw [dimsOfId_eq gnodes hnodup p hp]
    _ = gnodes := List.map_id gnodes

/-- The flattened rank rows have no duplicates when the entries have
none. -/
theorem rows_flatten_nodup (entries : List (String × Dims))
    (h : entries.Nodup) (rk : String → Nat) (n : Nat) :
    (((List.range n).map
      (fun r => entries.filter (fun e => rk e.1 = r))).flatten).Nodup := by
  rw [List.nodup_flatten]
  constructor
  · intro s hs
    rcases List.mem_map.mp hs with ⟨r, _, rfl⟩
    exact h.filter _
  · rw [List.pairwise_map]
    refine (List.pairwise_lt_range n).imp ?_
    intro r1 r2 hlt x hx1 hx2
    have h1 := List.of_mem_filter hx1
    have h2 := List.of_mem_filter hx2
    simp only [decide_eq_true_eq] at h1 h2
    omega

/-- Every entry whose rank is below the bound appears in the flattened
rows. -/
theorem mem_rows_flatten (entries : List (String × Dims)) (rk : String → Nat)
    (n : Nat) (p : String × Dims) (hp : p ∈ entries) (hrk : rk p.1 < n) :
    p ∈ ((List.range n).map
      (fun r => entries.filter (fun e => rk e.1 = r))).flatten := by
  rw [List.mem_flatten]
  refine ⟨entries.filter (fun e => rk e.1 = rk p.1), ?_, ?_⟩
  · exact List.mem_map.mpr ⟨rk p.1, List.mem_range.mpr hrk, rfl⟩
  · exact List.mem_filter.mpr ⟨hp, by simp⟩

/-- Flattened rows only contain entries. -/
theorem rows_flatten_subset (entries : List (String × Dims)) (rk : String → Nat)
    (n : Nat) (x : String × Dims)
    (hx : x ∈ ((List.range n).map
      (fun r => entries.filter (fun e => rk e.1 = r))).flatten) :
    x ∈ entries := by
  rcases List.mem_flatten.mp hx with ⟨row, hrow, hxrow⟩
  rcases List.mem_map.mp hrow with ⟨r, _, rfl⟩
  exact List.mem_of_mem_filter hxrow

end LayoutEngine

namespace LayoutEngine

/-- Two pairs of a unique-key list with equal keys are equal. -/
theorem mem_key_eq {e : List (α × β)} (he : (e.map Prod.fst).Nodup)
    {p q : α × β} (hp : p ∈ e) (hq : q ∈ e) (hk : p.1 = q.1) : p = q := by
  induction e with
  | nil => cases hp
  | cons x xs ih =>
      rcases List.nodup_cons.mp he with ⟨hx, hxs⟩
      rcases List.mem_cons.mp hp with rfl | hp2
      · rcases List.mem_cons.mp hq with rfl | hq2
        · rfl
        · exact absurd (List.mem_map.mpr ⟨q, hq2, hk.symm⟩) hx
      · rcases List.mem_cons.mp hq with rfl | hq2
        · exact absurd (List.mem_map.mpr ⟨p, hp2, hk⟩) hx
        · exact ih hxs hp2 hq2

/-- Keys of a duplicate-free sublist of a unique-key list are unique. -/
theorem nodup_keys_of_sub {l e : List (α × β)} (hl : l.Nodup)
    (hsub : ∀ p ∈ l, p ∈ e) (he : (e.map Prod.fst).Nodup) :
    (l.map Prod.fst).Nodup := by
  have hpw : l.Pairwise (fun p q => p.1 ≠ q.1) := by
    refine hl.imp_of_mem ?_
    intro a b ha hb hne heq
    exact hne (mem_key_eq he (hsub a ha) (hsub b hb) heq)
  exact List.pairwise_map.mpr hpw

/-- Under unique input ids, the graph entries are the input pairs. -/
theorem graphEntries_eq (gnodes : List (String × Dims))
    (hnodup : (gnodes.map Prod.fst).Nodup) : graphEntries gnodes = gnodes := by
  unfold graphEntries graphIds
  exact entries_eq_gnodes gnodes hnodup

/-- All placed entries are pairwise separated. -/
theorem dagrePlace_pairwise (cfg : LayoutConfig) (gnodes : List (String × Dims))
    (gedges : List (String × String))
    (hnodup : (gnodes.map Prod.fst).Nodup)
    (hns : 0 ≤ cfg.nodesep) (hrs : 0 ≤ cfg.ranksep)
    (hdims : ∀ p ∈ gnodes, 0 ≤ crossSize cfg.rankdir.vertical p.2 ∧
      0 ≤ mainSize cfg.rankdir.vertical p.2) :
    (dagrePlace cfg gnodes gedges).Pairwise
      (entriesSeparated cfg.rankdir.vertical) := by
  unfold dagrePlace
  apply placeRows_pairwise _ _ _ hns hrs
  intro row hrow p hp
  have hpe : p ∈ graphEntries gnodes := by
    unfold graphRows at hrow
    rcases List.mem_map.mp hrow with ⟨r, _, rfl⟩
    exact List.mem_of_mem_filter hp
  rw [graphEntries_eq gnodes hnodup] at hpe
  exact hdims p hpe

/-- Every input pair has a placed entry, found by id lookup, carrying its
dimensions. -/
theorem dagrePlace_find (cfg : LayoutConfig) (gnodes : List (String × Dims))
    (gedges : List (String × String))
    (hnodup : (gnodes.map Prod.fst).Nodup) :
    ∀ p ∈ gnodes, ∃ e,
      (dagrePlace cfg gnodes gedges).find? (fun e2 => e2.id = p.1) = some e ∧
      e ∈ dagrePlace cfg gnodes gedges ∧ e.id = p.1 ∧ e.dims = p.2 := by
  intro p hp
  have hent := graphEntries_eq gnodes hnodup
  have hflatmap : (dagrePlace cfg gnodes gedges).map (fun e => (e.id, e.dims)) =
      (graphRows gnodes gedges).flatten := by
    unfold dagrePlace
    exact placeRows_map_id_dims _ _ _ _ _
  have hpf : p ∈ (graphRows gnodes gedges).flatten := by
    unfold graphRows
    apply mem_rows_flatten
    · rw [hent]; exact hp
    · exact Nat.lt_succ_of_le (lookupRank_le_maxRankOf _ _)
  have hpm : p ∈ (dagrePlace cfg gnodes gedges).map (fun e => (e.id, e.dims)) := by
    rw [hflatmap]; exact hpf
  rcases List.mem_map.mp hpm with ⟨e, he, hpe⟩
  have hkeys : ((dagrePlace cfg gnodes gedges).map (fun e2 => e2.id)).Nodup := by
    have hfn : ((graphRows gnodes gedges).flatten).Nodup := by
      unfold graphRows
      apply rows_flatten_nodup
      rw [hent]
      have : gnodes.Nodup := by
        have hinj : Function.Injective (Prod.fst : String × Dims → String) →
            False ∨ True := fun _ => Or.inr trivial
        exact List.Nodup.of_map Prod.fst hnodup
      exact this
    have hsub : ∀ q ∈ (graphRows gnodes gedges).flatten, q ∈ graphEntries gnodes := by
      intro q hq
      unfold graphRows at hq
      exact rows_flatten_subset _ _ _ _ hq
    have hflkeys : (((graphRows gnodes gedges).flatten).map Prod.fst).Nodup := by
      refine nodup_keys_of_sub hfn hsub ?_
      rw [hent]
      exact hnodup
    have heq : (dagrePlace cfg gnodes gedges).map (fun e2 => e2.id) =
        ((graphRows gnodes gedges).flatten).map Prod.fst := by
      rw [← hflatmap, List.map_map]
      rfl
    rw [heq]
    exact hflkeys
  have hid : e.id = p.1 := by
    have : (e.id, e.dims).1 = p.1 := by rw [hpe]
    exact this
  have hdims2 : e.dims = p.2 := by
    have : (e.id, e.dims).2 = p.2 := by rw [hpe]
    exact this
  refine ⟨e, ?_, he, hid, hdims2⟩
  have hfind := find?_key_eq_some (fun e2 : PlacedEntry => e2.id)
    (dagrePlace cfg gnodes gedges) hkeys e he
  rw [← hid]
  exact hfind

end LayoutEngine

namespace LayoutEngine

/-- Distinct positions of a list with duplicate-free images carry distinct
images. -/
theorem nodup_map_getElem?_ne {l : List α} {f : α → β} (h : (l.map f).Nodup)
    {i j : Nat} (hij : i ≠ j) {x y : α} (hx : l[i]? = some x)
    (hy : l[j]? = some y) : f x ≠ f y := by
  have hpw : l.Pairwise (fun a b => f a ≠ f b) := List.pairwise_map.mp h
  rw [List.pairwise_iff_getElem] at hpw
  rcases List.getElem?_eq_some.mp hx with ⟨hi, rfl⟩
  rcases List.getElem?_eq_some.mp hy with ⟨hj, rfl⟩
  rcases Nat.lt_trichotomy i j with hlt | heq | hgt
  · exact hpw i j hi hj hlt
  · exact absurd heq hij
  · exact (hpw j i hj hi hgt).symm

/-- All six built-in profiles use nonnegative within-rank spacing. -/
theorem LAYOUT_CONFIGS_nodesep_nonneg (dt : DiagramType) :
    0 ≤ (LAYOUT_CONFIGS dt).nodesep := by
  cases dt <;> decide

/-- All six built-in profiles use nonnegative between-rank spacing. -/
theorem LAYOUT_CONFIGS_ranksep_nonneg (dt : DiagramType) :
    0 ≤ (LAYOUT_CONFIGS dt).ranksep := by
  cases dt <;> decide

/-- Every shape gets positive dimensions under every built-in profile. -/
theorem getNodeDimensions_pos (t : String) (dt : DiagramType) :
    0 < (getNodeDimensions t (LAYOUT_CONFIGS dt)).width ∧
    0 < (getNodeDimensions t (LAYOUT_CONFIGS dt)).height := by
  unfold getNodeDimensions
  split
  · exact ⟨by decide, by decide⟩
  · exact ⟨by decide, by decide⟩
  · exact ⟨by decide, by decide⟩
  · exact ⟨by decide, by decide⟩
  · exact ⟨by decide, by decide⟩
  · exact ⟨by decide, by decide⟩
  · cases dt <;> exact ⟨by decide, by decide⟩

/-- Positive box dimensions give nonnegative axis extents. -/
theorem sizes_nonneg (v : Bool) (d : Dims)
    (h : 0 < d.width ∧ 0 < d.height) :
    0 ≤ crossSize v d ∧ 0 ≤ mainSize v d := by
  cases v <;> unfold crossSize mainSize <;> constructor <;> simp <;> omega

/-- The keys of the layout graph nodes are the node ids. -/
theorem layoutGNodes_map_fst (nodes : List DiagramNode) (cfg : LayoutConfig) :
    (layoutGNodes nodes cfg).map Prod.fst = nodes.map (fun n => n.id) := by
  unfold layoutGNodes
  rw [List.map_map]
  rfl

end LayoutEngine

namespace LayoutEngine

/-- Non-overlap of the auto-configured layout: with duplicate-free node ids,
any two output nodes at distinct positions have disjoint shape-specific
bounding boxes. -/
theorem calculateLayout_no_overlap (nodes : List DiagramNode)
    (edges : List DiagramEdge)
    (hnodup : (nodes.map (fun n => n.id)).Nodup)
    {i j : Nat} (hij : i ≠ j) {a b : DiagramNode}
    (ha : (calculateLayout nodes edges none)[i]? = some a)
    (hb : (calculateLayout nodes edges none)[j]? = some b) :
    ¬ boxesOverlap (nodeBox (LAYOUT_CONFIGS (detectDiagramType nodes)) a)
      (nodeBox (LAYOUT_CONFIGS (detectDiagramType nodes)) b) := by
  cases nodes with
  | nil => simp [calculateLayout] at ha
  | cons n0 rest =>
  set nodes := n0 :: rest with hnodes
  set dt := detectDiagramType nodes with hdt
  set cfg := LAYOUT_CONFIGS dt with hcfg
  set gns := layoutGNodes nodes cfg with hgns
  set ges := layoutGEdges nodes edges cfg with hges
  set placed := dagrePlace cfg gns ges with hplaced
  set v := cfg.rankdir.vertical with hv
  have hcalc : calculateLayout nodes edges none =
      nodes.map (layoutPlacedNode cfg placed) := rfl
  rw [hcalc, List.getElem?_map] at ha hb
  cases hna : nodes[i]? with
  | none => rw [hna] at ha; cases ha
  | some na =>
  cases hnb : nodes[j]? with
  | none => rw [hnb] at hb; cases hb
  | some nb =>
  rw [hna] at ha
  rw [hnb] at hb
  have haF : a = layoutPlacedNode cfg placed na := by
    have h2 : some (layoutPlacedNode cfg placed na) = some a := ha
    injection h2 with h3
    exact h3.symm
  have hbF : b = layoutPlacedNode cfg placed nb := by
    have h2 : some (layoutPlacedNode cfg placed nb) = some b := hb
    injection h2 with h3
    exact h3.symm
  -- the ids of the two nodes differ
  have hidne : na.id ≠ nb.id :=
    nodup_map_getElem?_ne hnodup hij hna hnb
  -- layout graph facts
  have hgkeys : (gns.map Prod.fst).Nodup := by
    rw [hgns, layoutGNodes_map_fst]
    exact hnodup
  have hgdims : ∀ p ∈ gns, 0 ≤ crossSize v p.2 ∧ 0 ≤ mainSize v p.2 := by
    intro p hp
    rcases List.mem_map.mp hp with ⟨n, _, rfl⟩
    exact sizes_nonneg v _ (getNodeDimensions_pos n.type dt)
  have hpw := dagrePlace_pairwise cfg gns ges hgkeys
    (LAYOUT_CONFIGS_nodesep_nonneg dt) (LAYOUT_CONFIGS_ranksep_nonneg dt) hgdims
  -- placed entries of the two nodes
  have hname : na ∈ nodes := by
    rcases List.getElem?_eq_some.mp hna with ⟨h1, rfl⟩
    exact List.getElem_mem h1
  have hnbme : nb ∈ nodes := by
    rcases List.getElem?_eq_some.mp hnb with ⟨h1, rfl⟩
    exact List.getElem_mem h1
  have hpa : (na.id, getNodeDimensions na.type cfg) ∈ gns :=
    List.mem_map.mpr ⟨na, hname, rfl⟩
  have hpb : (nb.id, getNodeDimensions nb.type cfg) ∈ gns :=
    List.mem_map.mpr ⟨nb, hnbme, rfl⟩
  rcases dagrePlace_find cfg gns ges hgkeys _ hpa with ⟨ea, hfa0, hmema, hida0, hdimsa0⟩
  rcases dagrePlace_find cfg gns ges hgkeys _ hpb with ⟨eb, hfb0, hmemb, hidb0, hdimsb0⟩
  have hfa : (dagrePlace cfg gns ges).find? (fun e2 => e2.id = na.id) = some ea := hfa0
  have hfb : (dagrePlace cfg gns ges).find? (fun e2 => e2.id = nb.id) = some eb := hfb0
  have hida : ea.id = na.id := hida0
  have hidb : eb.id = nb.id := hidb0
  have hdimsa : ea.dims = getNodeDimensions na.type cfg := hdimsa0
  have hdimsb : eb.dims = getNodeDimensions nb.type cfg := hdimsb0
  have hcena : dagreCenter cfg placed na.id = entryCenter v ea := by
    unfold dagreCenter
    rw [hplaced, hfa]
    rfl
  have hcenb : dagreCenter cfg placed nb.id = entryCenter v eb := by
    unfold dagreCenter
    rw [hplaced, hfb]
    rfl
  have hene : ea ≠ eb := by
    intro he
    apply hidne
    rw [← hida, ← hidb, he]
  have hsep : entriesSeparated v ea eb :=
    List.Pairwise.forall (entriesSeparated_symm v) hpw hmema hmemb hene
  -- coordinates of the two output nodes
  have hatype : a.type = na.type := by rw [haF]; rfl
  have hbtype : b.type = nb.type := by rw [hbF]; rfl
  have hda : getNodeDimensions a.type cfg = ea.dims := by
    rw [hatype, hdimsa]
  have hdb : getNodeDimensions b.type cfg = eb.dims := by
    rw [hbtype, hdimsb]
  have hapos : a.position =
      ⟨(entryCenter v ea).x - ea.dims.width / 2,
       (entryCenter v ea).y - ea.dims.height / 2⟩ := by
    rw [haF]
    show (⟨_, _, ⟨(dagreCenter cfg placed na.id).x -
        (getNodeDimensions na.type cfg).width / 2,
      (dagreCenter cfg placed na.id).y -
        (getNodeDimensions na.type cfg).height / 2⟩, _⟩ : DiagramNode).position = _
    rw [hcena, hdimsa]
  have hbpos : b.position =
      ⟨(entryCenter v eb).x - eb.dims.width / 2,
       (entryCenter v eb).y - eb.dims.height / 2⟩ := by
    rw [hbF]
    show (⟨_, _, ⟨(dagreCenter cfg placed nb.id).x -
        (getNodeDimensions nb.type cfg).width / 2,
      (dagreCenter cfg placed nb.id).y -
        (getNodeDimensions nb.type cfg).height / 2⟩, _⟩ : DiagramNode).position = _
    rw [hcenb, hdimsb]
  -- discharge the overlap by cases on the layout direction
  intro hov
  unfold nodeBox at hov
  rw [hda, hdb] at hov
  unfold boxesOverlap at hov
  simp only at hov
  rw [hapos, hbpos] at hov
  unfold entriesSeparated at hsep
  by_cases hvert : v = true
  · rw [hvert] at hsep hov
    unfold entryMainTop at hsep
    simp only [entryCenter, crossSize, mainSize, eq_self_iff_true, if_true] at hov hsep
    rcases hsep with h | h | h | h <;> omega
  · have hvf : v = false := by
      cases hv2 : v
      · rfl
      · exact absurd hv2 hvert
    rw [hvf] at hsep hov
    unfold entryMainTop at hsep
    simp only [entryCenter, crossSize, mainSize, Bool.false_eq_true, if_false] at hov hsep
    rcases hsep with h | h | h | h <;> omega

end LayoutEngine

/-- Two nodes sharing the id `"a"`. -/
def dupA : DiagramNode := ⟨"a", "classNode", ⟨0, 0⟩, .classData "A" [] []⟩

/-- A second node with the same id and shape but different data. -/
def dupB : DiagramNode := ⟨"a", "classNode", ⟨5, 7⟩, .classData "B" [] []⟩

/-- C3 counterexample: two input nodes sharing an id are both read back from
the single layout-graph node of that id, so they land on identical
positions and their (positive-sized) bounding boxes overlap — refuting
"no two nodes' shape-specific bounding boxes overlap" for arbitrary node
lists. -/
theorem calculateLayout_duplicate_ids_overlap :
    LayoutEngine.calculateLayout [dupA, dupB] [] none =
      [⟨"a", "classNode", ⟨0, 0⟩, .classData "A" [] []⟩,
       ⟨"a", "classNode", ⟨0, 0⟩, .classData "B" [] []⟩] ∧
    LayoutEngine.boxesOverlap
      (LayoutEngine.nodeBox
        (LayoutEngine.LAYOUT_CONFIGS (LayoutEngine.detectDiagramType [dupA, dupB]))
        ⟨"a", "classNode", ⟨0, 0⟩, .classData "A" [] []⟩)
      (LayoutEngine.nodeBox
        (LayoutEngine.LAYOUT_CONFIGS (LayoutEngine.detectDiagramType [dupA, dupB]))
        ⟨"a", "classNode", ⟨0, 0⟩, .classData "B" [] []⟩) := by
  constructor
  · decide
  · decide

/-- C3 (amended): the auto-configured layout returns `[]` for empty input,
returns exactly one node per input node — preserving id, shape tag and data
and populating the position (an exact integer pair, hence finite; the
function is pure, so the input list is never mutated) — and, for input
nodes with pairwise-distinct ids, no two output nodes' shape-specific
bounding boxes overlap.  With duplicate ids the non-overlap clause fails
(see the counterexample).  The hierarchical algorithm the code delegates to
(dagre) is not part of the repository and is modelled from the spec's
description of it. -/
theorem calculateLayout_layout_law :
    (∀ (edges : List DiagramEdge),
      LayoutEngine.calculateLayout [] edges none = []) ∧
    (∀ (nodes : List DiagramNode) (edges : List DiagramEdge),
      (LayoutEngine.calculateLayout nodes edges none).length = nodes.length) ∧
    (∀ (nodes : List DiagramNode) (edges : List DiagramEdge) (i : Nat),
      ((LayoutEngine.calculateLayout nodes edges none)[i]?).map
          (fun n => (n.id, n.type, n.data)) =
        (nodes[i]?).map (fun n => (n.id, n.type, n.data))) ∧
    (∀ (nodes : List DiagramNode) (edges : List DiagramEdge),
      (nodes.map (fun n => n.id)).Nodup →
      ∀ (i j : Nat), i ≠ j → ∀ (a b : DiagramNode),
        (LayoutEngine.calculateLayout nodes edges none)[i]? = some a →
        (LayoutEngine.calculateLayout nodes edges none)[j]? = some b →
        ¬ LayoutEngine.boxesOverlap
          (LayoutEngine.nodeBox
            (LayoutEngine.LAYOUT_CONFIGS (LayoutEngine.detectDiagramType nodes)) a)
          (LayoutEngine.nodeBox
            (LayoutEngine.LAYOUT_CONFIGS (LayoutEngine.detectDiagramType nodes)) b)) := by
  refine ⟨fun edges => rfl, ?_, ?_, ?_⟩
  · intro nodes edges
    cases nodes with
    | nil => rfl
    | cons n0 rest =>
        show (List.map _ (n0 :: rest)).length = _
        rw [List.length_map]
  · intro nodes edges i
    cases nodes with
    | nil => rfl
    | cons n0 rest =>
        show ((List.map
          (LayoutEngine.layoutPlacedNode _ _) (n0 :: rest))[i]?).map _ = _
        rw [List.getElem?_map, Option.map_map]
        cases (n0 :: rest)[i]? with
        | none => rfl
        | some n => rfl
  · intro nodes edges hnodup i j hij a b ha hb
    exact LayoutEngine.calculateLayout_no_overlap nodes edges hnodup hij ha hb

/-- A first witness node. -/
def wn1 : DiagramNode := ⟨"x", "classNode", ⟨0, 0⟩, .classData "X" [] []⟩

/-- A second witness node with a distinct id. -/
def wn2 : DiagramNode := ⟨"y", "classNode", ⟨0, 0⟩, .classData "Y" [] []⟩

/-- Witness for C3 (amended): two distinct-id class nodes land on disjoint
boxes. -/
theorem calculateLayout_layout_law_witness :
    ([wn1, wn2].map (fun n => n.id)).Nodup ∧ (0 : Nat) ≠ 1 ∧
    (LayoutEngine.calculateLayout [wn1, wn2] [] none)[0]? =
      some ⟨"x", "classNode", ⟨0, 0⟩, .classData "X" [] []⟩ ∧
    (LayoutEngine.calculateLayout [wn1, wn2] [] none)[1]? =
      some ⟨"y", "classNode", ⟨280, 0⟩, .classData "Y" [] []⟩ ∧
    ¬ LayoutEngine.boxesOverlap
      (LayoutEngine.nodeBox
        (LayoutEngine.LAYOUT_CONFIGS (LayoutEngine.detectDiagramType [wn1, wn2]))
        ⟨"x", "classNode", ⟨0, 0⟩, .classData "X" [] []⟩)
      (LayoutEngine.nodeBox
        (LayoutEngine.LAYOUT_CONFIGS (LayoutEngine.detectDiagramType [wn1, wn2]))
        ⟨"y", "classNode", ⟨280, 0⟩, .classData "Y" [] []⟩) :=
  ⟨by decide, by decide, by decide, by decide,
   calculateLayout_layout_law.2.2.2 [wn1, wn2] [] (by decide) 0 1 (by decide)
     ⟨"x", "classNode", ⟨0, 0⟩, .classData "X" [] []⟩
     ⟨"y", "classNode", ⟨280, 0⟩, .classData "Y" [] []⟩
     (by decide) (by decide)⟩
